import Mathlib

/-!
Verification of the retrieval-augmentation orchestration pipeline of the
RAG-document-assistant repository, as a shallow embedding in Lean.

Texts, ids, queries and labels are modelled as `List Char` (`Str`) so that
every definition is executable by kernel reduction.  Python dictionaries
with insertion order are modelled as association lists; Python exceptions
are modelled with `Except`; external collaborators (vector search, BM25
index, cross-encoder, text generation) are modelled as oracle functions
bundled in a record, returning `Except` to represent calls that may raise.
-/

namespace RAG

/-- Texts, ids and labels: Python strings, as char lists (executable). -/
abbrev Str := List Char

/-- Coerce a Lean string literal to the `Str` model. -/
def str (s : String) : Str := s.data

/-- Python whitespace test (ASCII subset, as used by `str.strip`/`\s`). -/
def pyIsSpace (c : Char) : Bool :=
  c = ' ' || c = '\t' || c = '\n' || c = '\r' || c = '\x0b' || c = '\x0c'

/-- Python `str.strip()`. -/
def pyStrip (s : Str) : Str :=
  ((s.dropWhile pyIsSpace).reverse.dropWhile pyIsSpace).reverse

/-- Python `str.lower()` (ASCII). -/
def pyLower (s : Str) : Str := s.map Char.toLower

/-- Python truncation `int(q)` on a rational (round toward zero). -/
def pyInt (q : ℚ) : ℤ := if 0 ≤ q then ⌊q⌋ else ⌈q⌉

/-- `metadata` sub-dict of a chunk (only its `text` key is ever read). -/
structure ChunkMeta where
  text : Option Str := none
deriving DecidableEq, Repr

/-- A retrieved chunk: Python dict with the keys the pipeline reads/writes.
`none` in an `Option` field models absence of the key. -/
structure Chunk where
  id : Str := []
  chunkId : Option Str := none
  text : Option Str := none
  meta : Option ChunkMeta := none
  score : Option ℚ := none
  searchSources : List Str := []
  hybridScore : Option ℚ := none
  rerankScore : Option ℚ := none
  rrfScore : Option ℚ := none
  budgetAllocated : Option ℤ := none
  sentencesPruned : Option ℕ := none
  compressedFrom : Option ℕ := none
deriving DecidableEq, Repr

/-- Python `chunk.get("text", "")`. -/
def Chunk.getText (c : Chunk) : Str := c.text.getD []

/- =====================  keyword_search.py : hybrid_score_chunks  ===== -/

/-- `chunk_scores.get(id, 0) + v` update of the insertion-ordered score
dict (`chunk_scores[chunk_id] = chunk_scores.get(chunk_id, 0) + rrf`). -/
def addScore (m : List (Str × ℚ)) (k : Str) (v : ℚ) : List (Str × ℚ) :=
  match m with
  | [] => [(k, v)]
  | (k', v') :: rest =>
    if k' = k then (k', v' + v) :: rest else (k', v') :: addScore rest k v

/-- Lookup in an association list. -/
def alistFind (m : List (Str × α)) (k : Str) : Option α :=
  match m with
  | [] => none
  | (k', v) :: rest => if k' = k then some v else alistFind rest k

/-- Score of a key, defaulting to 0 (`chunk_scores.get(chunk_id, 0)`). -/
def scoreOf (m : List (Str × ℚ)) (k : Str) : ℚ := (alistFind m k).getD 0

/-- Keys of an association list, in insertion order. -/
def alistKeys (m : List (Str × α)) : List Str := m.map Prod.fst

/-- `chunk_data` update for the semantic pass: first occurrence stores a
copy with `search_sources = ["semantic"]`; a repeated id appends
`"semantic"` again (source has no membership check in this pass). -/
def addDataSem (m : List (Str × Chunk)) (k : Str) (c : Chunk) :
    List (Str × Chunk) :=
  match m with
  | [] => [(k, { c with searchSources := [str "semantic"] })]
  | (k', c') :: rest =>
    if k' = k then
      (k', { c' with searchSources := c'.searchSources ++ [str "semantic"] }) :: rest
    else (k', c') :: addDataSem rest k c

/-- `chunk_data` update for the keyword pass: first occurrence stores a
copy with `search_sources = ["keyword"]`; a repeated id appends
`"keyword"` only if not already present. -/
def addDataKw (m : List (Str × Chunk)) (k : Str) (c : Chunk) :
    List (Str × Chunk) :=
  match m with
  | [] => [(k, { c with searchSources := [str "keyword"] })]
  | (k', c') :: rest =>
    if k' = k then
      (k', if (str "keyword") ∈ c'.searchSources then c'
           else { c' with searchSources := c'.searchSources ++ [str "keyword"] }) :: rest
    else (k', c') :: addDataKw rest k c

/-- One enumeration pass of `hybrid_score_chunks` over a source list,
adding weighted RRF contributions `w * (1 / (60 + rank + 1))`; chunks with
an empty id are skipped but still advance the rank counter. -/
def procScores (w : ℚ) : ℕ → List Chunk → List (Str × ℚ) → List (Str × ℚ)
  | _, [], m => m
  | rank, c :: rest, m =>
    if c.id = [] then procScores w (rank + 1) rest m
    else procScores w (rank + 1) rest
      (addScore m c.id (w * (1 / (60 + (rank : ℚ) + 1))))

/-- The matching `chunk_data` pass (semantic variant). -/
def procDataSem : ℕ → List Chunk → List (Str × Chunk) → List (Str × Chunk)
  | _, [], m => m
  | rank, c :: rest, m =>
    if c.id = [] then procDataSem (rank + 1) rest m
    else procDataSem (rank + 1) rest (addDataSem m c.id c)

/-- The matching `chunk_data` pass (keyword variant). -/
def procDataKw : ℕ → List Chunk → List (Str × Chunk) → List (Str × Chunk)
  | _, [], m => m
  | rank, c :: rest, m =>
    if c.id = [] then procDataKw (rank + 1) rest m
    else procDataKw (rank + 1) rest (addDataKw m c.id c)

/-- `hybrid_score_chunks` (keyword_search.py): weighted Reciprocal Rank
Fusion of the two result lists, sorted by combined score descending
(stable, as Python `sorted`), truncated to `top_k`, each result annotated
with its `hybrid_score`. -/
def hybrid_score_chunks (semantic_chunks keyword_chunks : List Chunk)
    (semantic_weight keyword_weight : ℚ) (top_k : ℕ) : List Chunk :=
  let m := procScores keyword_weight 0 keyword_chunks
             (procScores semantic_weight 0 semantic_chunks [])
  let d := procDataKw 0 keyword_chunks (procDataSem 0 semantic_chunks [])
  let sorted_ids := (alistKeys m).mergeSort
    (fun a b => decide (scoreOf m b ≤ scoreOf m a))
  (sorted_ids.take top_k).filterMap (fun k =>
    (alistFind d k).map (fun c => { c with hybridScore := some (scoreOf m k) }))

/-- The `chunk_scores` dict of `hybrid_score_chunks` after both
enumeration passes. -/
def hybridM (semantic_chunks keyword_chunks : List Chunk)
    (semantic_weight keyword_weight : ℚ) : List (Str × ℚ) :=
  procScores keyword_weight 0 keyword_chunks
    (procScores semantic_weight 0 semantic_chunks [])

/-- The `chunk_data` dict of `hybrid_score_chunks` after both passes. -/
def hybridD (semantic_chunks keyword_chunks : List Chunk) :
    List (Str × Chunk) :=
  procDataKw 0 keyword_chunks (procDataSem 0 semantic_chunks [])

/-- The combined score the spec's RRF formula assigns to an id:
one contribution of `w * (1/(60 + rank + 1))` per source containing it. -/
def rrfSpecScore (semantic_chunks keyword_chunks : List Chunk)
    (semantic_weight keyword_weight : ℚ) (id : Str) : ℚ :=
  (if id ∈ semantic_chunks.map Chunk.id then
     semantic_weight * (1 / (60 + ((semantic_chunks.map Chunk.id).indexOf id : ℚ) + 1))
   else 0) +
  (if id ∈ keyword_chunks.map Chunk.id then
     keyword_weight * (1 / (60 + ((keyword_chunks.map Chunk.id).indexOf id : ℚ) + 1))
   else 0)

/- =====================  hybrid.py : hybrid_search  =================== -/

/-- Result record of `hybrid_search`. -/
structure HybridSearchResult where
  chunks : List Chunk
  semantic_count : ℕ
  keyword_count : ℕ
  strategy : Str
deriving DecidableEq, Repr

/-- The in-place patch applied to semantic results: if a chunk has no
`text` key but has `metadata`, copy `metadata.get("text", "")` in. -/
def patchSemanticText (c : Chunk) : Chunk :=
  match c.text, c.meta with
  | none, some m => { c with text := some (m.text.getD []) }
  | _, _ => c

/-- Outcomes of the two collaborator calls made by `hybrid_search`: the
Pinecone semantic query and the BM25 keyword search, each of which may
raise (`Except.error`). -/
structure RetrievalOutcome where
  semanticRes : Except Str (List Chunk)
  keywordRes : Except Str (List Chunk)

/-- The semantic chunk list seen by `hybrid_search`: a raise of the
Pinecone call is caught and treated as no results; successful results get
the metadata-text patch. -/
def semChunksOf (res : Except Str (List Chunk)) : List Chunk :=
  match res with
  | Except.ok l => l.map patchSemanticText
  | Except.error _ => []

/-- The keyword chunk list seen by `hybrid_search`: a raise of the BM25
search is caught and treated as no results. -/
def kwChunksOf (res : Except Str (List Chunk)) : List Chunk :=
  match res with
  | Except.ok l => l
  | Except.error _ => []

/-- `hybrid_search` (hybrid.py): run both retrievers isolated from each
other (a raise in either is caught and treated as an empty result),
choose the strategy from which sources yielded chunks, fuse or truncate.
`out` bundles the two collaborator call results for the requested
`fetch_k` (which defaults to `2 * top_k`). -/
def hybrid_search (out : RetrievalOutcome) (top_k : ℕ)
    (semantic_weight keyword_weight : ℚ) : HybridSearchResult :=
  let semantic_chunks := semChunksOf out.semanticRes
  let keyword_chunks := kwChunksOf out.keywordRes
  if semantic_chunks ≠ [] ∧ keyword_chunks ≠ [] then
    { chunks := hybrid_score_chunks semantic_chunks keyword_chunks
        semantic_weight keyword_weight top_k
      semantic_count := semantic_chunks.length
      keyword_count := keyword_chunks.length
      strategy := str "hybrid" }
  else if semantic_chunks ≠ [] then
    { chunks := semantic_chunks.take top_k
      semantic_count := semantic_chunks.length
      keyword_count := keyword_chunks.length
      strategy := str "semantic_only" }
  else if keyword_chunks ≠ [] then
    { chunks := keyword_chunks.take top_k
      semantic_count := semantic_chunks.length
      keyword_count := keyword_chunks.length
      strategy := str "keyword_only" }
  else
    { chunks := []
      semantic_count := semantic_chunks.length
      keyword_count := keyword_chunks.length
      strategy := str "none" }

/- =====================  reranker.py : rerank_chunks  ================= -/

/-- Result record of `rerank_chunks`. -/
structure RerankResult where
  chunks : List Chunk
  model_used : Str
  reranked : Bool
deriving DecidableEq, Repr

/-- The cross-encoder collaborator: loading the model may raise, and
`model.predict(pairs)` over the query/text pairs may raise. -/
structure CrossEncoderOracle where
  load : Except Str Unit
  predict : List (Str × Str) → Except Str (List ℚ)

/-- Text used for a rerank pair: `chunk.get("text", "")`, falling back to
`metadata.get("text", "")` when empty/absent and metadata exists. -/
def rerankPairText (c : Chunk) : Str :=
  let t := c.getText
  if t = [] ∧ c.meta.isSome then
    match c.meta with
    | some m => m.text.getD []
    | none => []
  else t

/-- The body of the `try` block of `rerank_chunks`: load the model, score
all pairs, stable-sort descending by score, truncate to `top_k`, annotate
each result with its `rerank_score`.  An error is any raise inside. -/
def rerankCore (enc : CrossEncoderOracle) (query : Str)
    (chunks : List Chunk) (top_k : ℕ) : Except Str (List Chunk) := do
  let _ ← enc.load
  let pairs := chunks.map (fun c => (query, rerankPairText c))
  let scores ← enc.predict pairs
  let scored := chunks.zip scores
  let scored := scored.mergeSort (fun a b => decide (b.2 ≤ a.2))
  pure ((scored.take top_k).map
    (fun p => { p.1 with rerankScore := some p.2 }))

/-- `rerank_chunks` (reranker.py): degenerate inputs (0 or 1 chunks) skip
scoring; any model failure is caught, returning the original order
truncated to `top_k` with the failure reason recorded in `model_used`. -/
def rerank_chunks (enc : CrossEncoderOracle) (query : Str)
    (chunks : List Chunk) (top_k : ℕ)
    (model_name : Str := str "cross-encoder/ms-marco-MiniLM-L-6-v2") :
    RerankResult :=
  if chunks = [] then
    { chunks := [], model_used := str "none", reranked := false }
  else if chunks.length ≤ 1 then
    { chunks := chunks, model_used := str "none", reranked := false }
  else
    match rerankCore enc query chunks top_k with
    | Except.ok results =>
      { chunks := results, model_used := model_name, reranked := true }
    | Except.error e =>
      { chunks := chunks.take top_k
        model_used := str "fallback (error: " ++ e.take 50 ++ str ")"
        reranked := false }

/- =====================  shaper.py : context shaping  ================= -/

/-- A text-generation response dict; `text` models `response.get("text", "")`. -/
structure LLMResp where
  text : Str := []
  metaProvider : Str := []
deriving DecidableEq, Repr

/-- The text-generation collaborator: `importOk` models whether
`from src.llm_providers import call_llm` succeeds at the call site, and
`call prompt temperature max_tokens` models `call_llm`, which may raise. -/
structure LLMOracle where
  importOk : Bool
  call : Str → ℚ → ℤ → Except Str LLMResp

/-- `_estimate_tokens`: `len(text) // 4` (a floor division of a
non-negative length, i.e. natural division). -/
def estTokens (s : Str) : ℤ := ((s.length / 4 : ℕ) : ℤ)

/-- Raw pass of `_split_sentences`: `re.split(r'(?<=[.!?])\s+', text)`
splits at each whitespace run preceded by `.`, `!` or `?`, consuming the
run.  The Boolean state marks that the whitespace run following a split
is being consumed (structural recursion, so the kernel can evaluate). -/
def splitSentAux : Bool → Option Char → Str → Str → List Str
  | _, _, acc, [] => [acc.reverse]
  | skipping, prev, acc, c :: rest =>
    if skipping ∧ pyIsSpace c then splitSentAux true none acc rest
    else if pyIsSpace c ∧
        (prev = some '.' ∨ prev = some '!' ∨ prev = some '?') then
      acc.reverse :: splitSentAux true none [] rest
    else splitSentAux false (some c) (c :: acc) rest

/-- Entry point of the raw sentence split. -/
def splitSentRaw (text : Str) : List Str := splitSentAux false none [] text

/-- `_split_sentences`: split, strip each piece, keep non-empty ones. -/
def splitSentences (text : Str) : List Str :=
  ((splitSentRaw text).map pyStrip).filter (· ≠ [])

/-- Greedy pass of `deduplicate_chunks`: a chunk is dropped when its
similarity to some already-kept chunk reaches the threshold. -/
def dedupGo (sim : Str → Str → ℚ) (th : ℚ) :
    List Chunk → ℕ → List Chunk → List Chunk × ℕ
  | kept, removed, [] => (kept, removed)
  | kept, removed, c :: rest =>
    if kept.any (fun k => decide (th ≤ sim c.getText k.getText)) then
      dedupGo sim th kept (removed + 1) rest
    else
      dedupGo sim th (kept ++ [c]) removed rest

/-- `deduplicate_chunks` (shaper.py); `sim` is the deterministic pairwise
similarity function (`_compute_similarity`). -/
def deduplicate_chunks (sim : Str → Str → ℚ) (chunks : List Chunk)
    (threshold : ℚ := 0.85) : List Chunk × ℕ :=
  if chunks.length ≤ 1 then (chunks, 0)
  else dedupGo sim threshold [] 0 chunks

/-- Python `text[:char_limit].rsplit(" ", 1)[0]`: everything before the
last space of the truncated text (the whole text when it has no space). -/
def rsplitSpaceHead (l : Str) : Str :=
  let r := l.reverse.dropWhile (fun c => decide (c ≠ ' '))
  match r with
  | [] => l
  | _ :: t => t.reverse

/-- Truncation of an over-budget chunk text: keep the first
`chunk_budget * 4` characters, cut at a word boundary, add an ellipsis. -/
def trimToBudget (text : Str) (chunk_budget : ℤ) : Str :=
  let char_limit := chunk_budget * 4
  rsplitSpaceHead (text.take char_limit.toNat) ++ str "..."

/-- The per-chunk budget of `budget_chunks`: the proportional share
`int(score / total_score * token_budget)` (score defaulting to 0.5),
raised to the floor `min_tokens`, capped at the remaining budget. -/
def chunkBudgetOf (c : Chunk) (total_score : ℚ) (tb min_tokens rem : ℤ) : ℤ :=
  min (max (pyInt ((c.score.getD (1/2) / total_score) * (tb : ℚ))) min_tokens) rem

/-- The chunk text after the budget stage: trimmed when over budget. -/
def budgetedText (c : Chunk) (cb : ℤ) : Str :=
  if estTokens c.getText > cb then trimToBudget c.getText cb else c.getText

/-- The allocation loop of `budget_chunks`, carrying `remaining_budget`. -/
def budgetGo (tb min_tokens : ℤ) (total_score : ℚ) :
    ℤ → List Chunk → List Chunk
  | _, [] => []
  | remaining, c :: rest =>
    let cb := chunkBudgetOf c total_score tb min_tokens remaining
    if cb ≤ 0 then budgetGo tb min_tokens total_score remaining rest
    else
      let text := budgetedText c cb
      let c' := { c with text := some text, budgetAllocated := some cb }
      let remaining' := remaining - estTokens text
      c' :: (if remaining' ≤ 0 then [] else budgetGo tb min_tokens total_score remaining' rest)

/-- `budget_chunks` (shaper.py): proportional token allocation, clamped
to `[min_tokens_per_chunk, remaining_budget]`, with early stop once the
remaining budget is exhausted. -/
def budget_chunks (chunks : List Chunk) (token_budget : ℤ)
    (min_tokens_per_chunk : ℤ := 50) : List Chunk :=
  if chunks = [] then []
  else
    let ts := (chunks.map (fun c => c.score.getD (1/2))).sum
    let total_score := if ts = 0 then (chunks.length : ℚ) else ts
    budgetGo token_budget min_tokens_per_chunk total_score token_budget chunks

/-- `prune_irrelevant_sentences` (shaper.py): keep short sentences
unconditionally, keep others when relevant enough, floor at the first
sentence when everything would be pruned. -/
def prune_irrelevant_sentences (sim : Str → Str → ℚ) (c : Chunk)
    (query : Str) (relevance_threshold : ℚ := 0.3) : Chunk :=
  let text := c.getText
  if text = [] then c
  else
    let sentences := splitSentences text
    if sentences.length ≤ 1 then c
    else
      let relevant := sentences.filter
        (fun s => decide (s.length < 10) || decide (relevance_threshold ≤ sim query s))
      let relevant := if relevant = [] then sentences.take 1 else relevant
      { c with
        text := some (List.intercalate (str " ") relevant)
        sentencesPruned := some (sentences.length - relevant.length) }

/-- Decimal rendering of an integer (for prompt interpolation). -/
def intToStr (i : ℤ) : Str :=
  if i < 0 then '-' :: Nat.toDigits 10 i.natAbs else Nat.toDigits 10 i.toNat

/-- The compression prompt of `compress_with_llm`. -/
def compressPrompt (query : Str) (target_tokens : ℤ) (combined : Str) : Str :=
  str "Summarize the following context to approximately " ++
  intToStr (target_tokens * 4) ++ str " characters.\n" ++
  str "Preserve all key facts relevant to this query: " ++ query ++ str "\n" ++
  str "Keep specific names, numbers, and dates.\n\nContext:\n" ++ combined ++
  str "\n\nSummary:"

/-- Python `max()` over a sequence of floats: raises on an empty one. -/
def pyMaxQ : List ℚ → Except Unit ℚ
  | [] => Except.error ()
  | x :: xs => Except.ok (xs.foldl max x)

/-- `compress_with_llm` (shaper.py): no-op when the provider import
fails, when the combined text is already within target, or when the call
(or the `max()` over an empty chunk list) raises; otherwise replaces the
chunk set by one synthetic `compressed_context` chunk. -/
def compress_with_llm (llm : LLMOracle) (chunks : List Chunk)
    (query : Str) (target_tokens : ℤ) : List Chunk :=
  if !llm.importOk then chunks
  else
    let combined := List.intercalate (str "\n\n") (chunks.map Chunk.getText)
    if estTokens combined ≤ target_tokens then chunks
    else
      match llm.call (compressPrompt query target_tokens combined) 0 target_tokens with
      | Except.error _ => chunks
      | Except.ok resp =>
        match pyMaxQ (chunks.map (fun c => c.score.getD 0)) with
        | Except.error _ => chunks
        | Except.ok m =>
          [{ id := str "compressed_context"
             text := some (pyStrip resp.text)
             score := some m
             compressedFrom := some chunks.length }]

/-- Result record of `shape_context`. -/
structure ContextShapeResult where
  chunks : List Chunk
  original_tokens : ℤ
  final_tokens : ℤ
  chunks_removed : ℕ
  compression_applied : Bool
deriving DecidableEq, Repr

/-- `shape_context` (shaper.py): dedup → optional prune → budget →
conditional compress.  The float literal `1.2` of the compression trigger
is modelled by the exact rational `12/10`. -/
def shape_context (sim : Str → Str → ℚ) (llm : LLMOracle)
    (chunks : List Chunk) (query : Str) (token_budget : ℤ := 3000)
    (dedup_threshold : ℚ := 0.85) (enable_pruning : Bool := true)
    (enable_compression : Bool := true) (relevance_threshold : ℚ := 0.3) :
    ContextShapeResult :=
  if chunks = [] then
    { chunks := [], original_tokens := 0, final_tokens := 0
      chunks_removed := 0, compression_applied := false }
  else
    let original_tokens := (chunks.map (fun c => estTokens c.getText)).sum
    let dd := deduplicate_chunks sim chunks dedup_threshold
    let deduped := if enable_pruning then
        dd.1.map (fun c => prune_irrelevant_sentences sim c query relevance_threshold)
      else dd.1
    let budgeted := budget_chunks deduped token_budget
    let current_tokens := (budgeted.map (fun c => estTokens c.getText)).sum
    let bc :=
      if enable_compression ∧ (current_tokens : ℚ) > (token_budget : ℚ) * (12/10) then
        (compress_with_llm llm budgeted query token_budget, true)
      else (budgeted, false)
    { chunks := bc.1
      original_tokens := original_tokens
      final_tokens := (bc.1.map (fun c => estTokens c.getText)).sum
      chunks_removed := dd.2
      compression_applied := bc.2 }

/- =====================  rewriter.py : query rewriting  =============== -/

/-- Result record of `rewrite_query`. -/
structure QueryRewriteResult where
  original_query : Str
  rewritten_queries : List Str
  strategy_used : Str
deriving DecidableEq, Repr

/-- Python `str.split()` (split on whitespace runs, dropping empties);
`cur` accumulates the current word reversed (structural recursion). -/
def pySplitWsAux (cur : Str) : Str → List Str
  | [] => if cur = [] then [] else [cur.reverse]
  | c :: rest =>
    if pyIsSpace c then
      if cur = [] then pySplitWsAux [] rest
      else cur.reverse :: pySplitWsAux [] rest
    else pySplitWsAux (c :: cur) rest

/-- Python `str.split()`. -/
def pySplitWs (s : Str) : List Str := pySplitWsAux [] s

/-- Python `s.split(sep)` for a single separator char, keeping empties. -/
def splitOnChar (sep : Char) : Str → List Str
  | [] => [[]]
  | c :: rest =>
    if c = sep then [] :: splitOnChar sep rest
    else
      match splitOnChar sep rest with
      | h :: t => (c :: h) :: t
      | [] => [[c]]

/-- The ASCII word characters `[A-Za-z0-9_]`.  Python's `\w` (no
`re.ASCII`) is Unicode-aware: its full classifier is runtime table data of
the `re` module, so the definitions below take the word-character
predicate `wc` as a parameter — like the LLM collaborators — and this
ASCII restriction, which coincides with `\w` on ASCII text, instantiates
it for concrete runs. -/
def isWordChar (c : Char) : Bool := c.isAlphanum || c = '_'

/-- The `SYNONYMS` table of rewriter.py. -/
def SYNONYMS : List (Str × List Str) :=
  [ (str "fix", [str "resolve", str "troubleshoot", str "repair", str "solve"])
  , (str "error", [str "issue", str "problem", str "failure", str "bug"])
  , (str "login", [str "sign-in", str "authentication", str "log in"])
  , (str "cost", [str "price", str "pricing", str "fee", str "rate"])
  , (str "fast", [str "quick", str "performance", str "speed", str "efficient"])
  , (str "slow", [str "performance", str "latency", str "delay"])
  , (str "setup", [str "install", str "configure", str "initialization"])
  , (str "delete", [str "remove", str "uninstall", str "clear"])
  , (str "create", [str "add", str "new", str "generate", str "make"])
  , (str "update", [str "modify", str "change", str "edit", str "upgrade"])
  , (str "get", [str "retrieve", str "fetch", str "obtain", str "access"])
  , (str "show", [str "display", str "view", str "list"]) ]

/-- `_expand_with_synonyms`: collect synonyms of each (lowercased,
`re.sub(r'[^\w]', '', ·)`-cleaned) query word and append them to the
query; `wc` is the `\w` classifier. -/
def expandWithSynonyms (wc : Char → Bool) (query : Str) : List Str :=
  let words := pySplitWs (pyLower query)
  let expansions := words.foldl (fun acc w =>
    let clean_word := w.filter wc
    match alistFind SYNONYMS clean_word with
    | some syns => acc ++ syns
    | none => acc) []
  if expansions ≠ [] then
    [query, query ++ [' '] ++ List.intercalate [' '] expansions]
  else [query]

/-- Scan helper for substring containment. -/
def strContainsAux (marker : Str) : Str → Bool
  | [] => decide (marker = [])
  | c :: rest =>
    decide ((c :: rest).take marker.length = marker) || strContainsAux marker rest

/-- Python `marker in text` (substring containment). -/
def strContains (text marker : Str) : Bool := strContainsAux marker text

/-- `_is_complex_query`: multi-intent conjunctions, comparison markers,
or more than 15 words. -/
def isComplexQuery (query : Str) : Bool :=
  let ql := pyLower query
  ([str " and ", str " also ", str " as well as ", str " plus "].any
     (strContains ql)) ||
  ([str " vs ", str " versus ", str "compare", str "difference", str "between"].any
     (strContains ql)) ||
  decide (15 < (pySplitWs query).length)

/-- Decimal rendering of a natural (for prompt interpolation). -/
def natToStr (n : ℕ) : Str := Nat.toDigits 10 n

/-- `MULTI_QUERY_PROMPT` of rewriter.py, with placeholders spliced. -/
def multiQueryPrompt (num_variants : ℕ) (query : Str) : Str :=
  str "You are a query rewriting assistant for a document search system.\n\nGiven a user query, generate " ++
  natToStr num_variants ++
  str " alternative search queries that would help find relevant documents.\n\nRules:\n- Each variant should use different terminology while preserving the intent\n- Include both formal/technical and casual phrasings\n- If the query contains multiple questions, create separate queries for each\n- Output ONLY the queries, one per line, no numbering or explanations\n\nUser query: " ++
  query ++ str "\n\nAlternative queries:"

/-- `DECOMPOSE_PROMPT` of rewriter.py, with the query spliced. -/
def decomposePrompt (query : Str) : Str :=
  str "You are a query analysis assistant.\n\nGiven a complex user query, break it down into simple, atomic sub-queries that can be searched independently.\n\nRules:\n- Each sub-query should focus on one specific piece of information\n- Preserve the key terms from the original query\n- Output ONLY the sub-queries, one per line, no numbering or explanations\n- Generate between 2-4 sub-queries\n\nUser query: " ++
  query ++ str "\n\nSub-queries:"

/-- Characters stripped from the front of an LLM output line by
`re.sub(r'^[\d\-\.\)\*]+\s*', '', line)`. -/
def isNumberingChar (c : Char) : Bool :=
  c.isDigit || c = '-' || c = '.' || c = ')' || c = '*'

/-- Numbering cleanup of a parsed line, then `strip()`. -/
def cleanNumbering (l : Str) : Str :=
  let l' := if (l.head?.map isNumberingChar).getD false then
      (l.dropWhile isNumberingChar).dropWhile pyIsSpace
    else l
  pyStrip l'

/-- The line parsing of the LLM response inside `_rewrite_with_llm`:
split on newlines, strip, drop empties, strip numbering, keep lines
longer than 3 characters. -/
def parsedLines (text : Str) : List Str :=
  let lines := ((splitOnChar '\n' (pyStrip text)).map pyStrip).filter (· ≠ [])
  (lines.map cleanNumbering).filter (fun c => decide (3 < c.length))

/-- The rest of `_rewrite_with_llm`'s response handling: ensure the
original query is present, then truncate to `num_variants + 1`. -/
def parseRewriteResponse (query : Str) (num_variants : ℕ) (text : Str) :
    List Str :=
  let queries := parsedLines text
  let queries := if query ∈ queries then queries else query :: queries
  queries.take (num_variants + 1)

/-- `_rewrite_with_llm` (rewriter.py): ask the generator for variants or
sub-queries; fall back to `[query]` when the provider is unavailable or
the call raises.  The float `0.3` temperature is the rational `3/10`. -/
def rewriteWithLLM (llm : LLMOracle) (query : Str) (num_variants : ℕ)
    (strategy : Str) : List Str :=
  if !llm.importOk then [query]
  else
    let prompt := if strategy = str "decompose" then decomposePrompt query
      else multiQueryPrompt num_variants query
    match llm.call prompt (3/10) 256 with
    | Except.error _ => [query]
    | Except.ok resp => parseRewriteResponse query num_variants resp.text

/-- The body of `rewrite_query` after the initial `query.strip()`:
pick the strategy (resolving `auto`) and rewrite; invalid strategies or
an unavailable generator fall back to synonym expansion. -/
def rewriteCore (wc : Char → Bool) (llm : LLMOracle) (query : Str)
    (num_variants : ℕ) (strategy : Option Str) (use_llm : Bool) :
    QueryRewriteResult :=
  if query = [] then
    { original_query := query, rewritten_queries := [query]
      strategy_used := str "none" }
  else
    let strategy := if strategy = some (str "auto") then
        some (if isComplexQuery query ∧ use_llm ∧ llm.importOk then str "decompose"
          else if use_llm ∧ llm.importOk then str "multi"
          else str "expand")
      else strategy
    if strategy = some (str "expand") then
      { original_query := query
        rewritten_queries := expandWithSynonyms wc query
        strategy_used := str "expand" }
    else if strategy = some (str "multi") ∧ use_llm ∧ llm.importOk then
      { original_query := query
        rewritten_queries := rewriteWithLLM llm query num_variants (str "multi")
        strategy_used := str "multi" }
    else if strategy = some (str "decompose") ∧ use_llm ∧ llm.importOk then
      { original_query := query
        rewritten_queries := rewriteWithLLM llm query num_variants (str "decompose")
        strategy_used := str "decompose" }
    else
      { original_query := query
        rewritten_queries := expandWithSynonyms wc query
        strategy_used := str "expand" }

/-- `rewrite_query` (rewriter.py): strip the query, then rewrite. -/
def rewrite_query (wc : Char → Bool) (llm : LLMOracle) (query0 : Str)
    (num_variants : ℕ := 3) (strategy : Option Str := some (str "auto"))
    (use_llm : Bool := true) : QueryRewriteResult :=
  rewriteCore wc llm (pyStrip query0) num_variants strategy use_llm

/- =====================  analyzer.py : query analysis  ================ -/

/-- Result record of `analyze_query`. -/
structure QueryAnalysis where
  query_type : Str
  sub_queries : List Str
  retrieval_strategy : Str
  reasoning_required : Bool
  confidence : ℚ
deriving DecidableEq, Repr

/-- Does the literal pattern `p` match at the head of `s`, with `\b` word
boundaries at both ends (`prev` is the char before the match)?  `wc` is
the `\w` classifier. -/
def wordBoundedAt (wc : Char → Bool) (p : Str) (prev : Option Char)
    (s : Str) : Bool :=
  decide (s.take p.length = p) &&
  (match prev with | none => true | some c => ! wc c) &&
  (match (s.drop p.length).head? with | none => true | some c => ! wc c)

/-- `re.search(r'\b<p>\b', s)` for a literal pattern `p` (word chars at
both ends).  `r'\bvs\.?\b'` reduces to this with `p = "vs"`: when the
optional dot is present the engine can always backtrack to the empty dot,
where the boundary between `s` and the non-word `.` holds. -/
def wordBoundedSearch (wc : Char → Bool) (p : Str) : Option Char → Str → Bool
  | prev, [] => wordBoundedAt wc p prev []
  | prev, c :: rest =>
    wordBoundedAt wc p prev (c :: rest) || wordBoundedSearch wc p (some c) rest

/-- A classification pattern matches the lowercased query. -/
def patternHit (wc : Char → Bool) (q : Str) (p : Str) : Bool :=
  wordBoundedSearch wc p none q

/-- The literal cores of `COMPARATIVE_PATTERNS`. -/
def COMPARATIVE_PATTERNS : List Str :=
  [str "compare", str "vs", str "versus", str "difference",
   str "better", str "worse", str "similar", str "unlike"]

/-- The literal cores of `PROCEDURAL_PATTERNS`. -/
def PROCEDURAL_PATTERNS : List Str :=
  [str "how to", str "how do", str "how can", str "steps to",
   str "process", str "procedure", str "method"]

/-- The literal cores of `ANALYTICAL_PATTERNS` (note `analyz` requires a
word boundary right after the `z`, exactly as the source pattern does). -/
def ANALYTICAL_PATTERNS : List Str :=
  [str "why", str "cause", str "reason", str "explain",
   str "analyz", str "impact", str "effect", str "implication"]

/-- The literal cores of `AGGREGATIVE_PATTERNS`. -/
def AGGREGATIVE_PATTERNS : List Str :=
  [str "list", str "all", str "every", str "enumerate",
   str "summarize", str "overview", str "main"]

/-- `_classify_query`: ordered pattern checks with fixed confidences. -/
def classifyQuery (wc : Char → Bool) (query : Str) : Str × ℚ :=
  let ql := pyLower query
  if COMPARATIVE_PATTERNS.any (patternHit wc ql) then (str "comparative", 8/10)
  else if PROCEDURAL_PATTERNS.any (patternHit wc ql) then (str "procedural", 8/10)
  else if ANALYTICAL_PATTERNS.any (patternHit wc ql) then (str "analytical", 8/10)
  else if AGGREGATIVE_PATTERNS.any (patternHit wc ql) then (str "aggregative", 8/10)
  else (str "factual", 6/10)

/-- The separator alternation of the comparative decomposition regex
`(?:vs\.?|versus|and|compared to)`, in engine try order. -/
def compSeps : List Str :=
  [str "vs.", str "vs", str "versus", str "and", str "compared to"]

/-- Try to match `\s+(?:vs\.?|versus|and|compared to)\s+(.+)` at this
point of the string, returning the second capture group.  When nothing
but whitespace follows the separator the engine backtracks the greedy
trailing `\s+` so that `(.+)` captures the last non-newline whitespace
char of the run beyond its mandatory first char. -/
def compSepCheck (s : Str) : Option Str :=
  let ws := s.takeWhile pyIsSpace
  if ws = [] then none
  else
    let a := s.drop ws.length
    compSeps.findSome? (fun sep =>
      if (pyLower a).take sep.length = sep then
        let b := a.drop sep.length
        let ws2 := b.takeWhile pyIsSpace
        if ws2 = [] then none
        else
          let rem := b.drop ws2.length
          if rem ≠ [] then some (rem.takeWhile (fun c => decide (c ≠ '\n')))
          else
            match (ws2.drop 1).reverse.dropWhile (fun c => decide (c = '\n')) with
            | [] => none
            | c :: _ => some [c]
      else none)

/-- The lazy group-1 scan for a fixed start: grow `(.+?)` one (non-newline)
char at a time and test the separator tail. -/
def compScanK (acc : Str) : Str → Option (Str × Str)
  | [] => none
  | c :: rest =>
    if c = '\n' then none
    else
      match compSepCheck rest with
      | some g2 => some (acc ++ [c], g2)
      | none => compScanK (acc ++ [c]) rest

/-- `re.search(r'(.+?)\s+(?:vs\.?|versus|and|compared to)\s+(.+)', q, I)`:
leftmost start, then shortest first group. -/
def compSplitSearch : Str → Option (Str × Str)
  | [] => none
  | c :: rest =>
    match compScanK [] (c :: rest) with
    | some r => some r
    | none => compSplitSearch rest

/-- `re.sub(r'^compare\s+', '', s, flags=I)`: drop a leading `compare`
followed by whitespace. -/
def dropLeadingCompare (s : Str) : Str :=
  if (pyLower s).take 7 = str "compare" then
    let rest := s.drop 7
    let ws := rest.takeWhile pyIsSpace
    if ws = [] then s else rest.drop ws.length
  else s

/-- The optional auxiliary alternation of the analytical regex, in engine
try order. -/
def whyAuxWords : List Str :=
  [str "does", str "is", str "do", str "are", str "did", str "was", str "were"]

/-- Match `\s*(.+)` at this point.  The greedy `\s*` backs off one char at
a time, so on a pure-whitespace rest the capture is the single last
non-newline whitespace char of the run (everything after it is `\n`,
which `.` cannot match). -/
def wsCapture (b : Str) : Option Str :=
  let wsr := b.takeWhile pyIsSpace
  let b2 := b.drop wsr.length
  if b2 ≠ [] then some (b2.takeWhile (fun c => decide (c ≠ '\n')))
  else
    match wsr.reverse.dropWhile (fun c => decide (c = '\n')) with
    | [] => none
    | c :: _ => some [c]

/-- Match the tail `\s+(?:does|is|do|are|did|was|were)?\s*(.+)` of the
analytical regex after a `why` occurrence.  On a pure-whitespace tail the
mandatory `\s+` keeps its first char and gives the rest back, so `(.+)`
captures the last non-newline whitespace char at position two or later of
the run. -/
def whyTail (t : Str) : Option Str :=
  let ws := t.takeWhile pyIsSpace
  if ws = [] then none
  else
    let a := t.drop ws.length
    if a = [] then
      match (ws.drop 1).reverse.dropWhile (fun c => decide (c = '\n')) with
      | [] => none
      | c :: _ => some [c]
    else
      match whyAuxWords.findSome? (fun aux =>
        if (pyLower a).take aux.length = aux then wsCapture (a.drop aux.length)
        else none) with
      | some g => some g
      | none => wsCapture a

/-- `re.search(r'why\s+(?:does|is|do|are|did|was|were)?\s*(.+)', q, I)`:
leftmost `why` occurrence whose tail matches. -/
def whySearch : Str → Option Str
  | [] => none
  | c :: rest =>
    if pyLower ((c :: rest).take 3) = str "why" then
      match whyTail ((c :: rest).drop 3) with
      | some g => some g
      | none => whySearch rest
    else whySearch rest

/-- `_decompose_query` (analyzer.py). -/
def decomposeQuery (query : Str) (query_type : Str) : List Str :=
  if query_type = str "comparative" then
    match compSplitSearch query with
    | some (g1, g2) =>
      let subject1 := dropLeadingCompare (pyStrip g1)
      let subject2 := pyStrip g2
      [query, subject1, subject2]
    | none => [query]
  else if query_type = str "analytical" then
    match whySearch query with
    | some g =>
      let subject := pyStrip g
      [query, str "causes of " ++ subject, str "factors affecting " ++ subject]
    | none => [query]
  else [query]

/-- `_determine_strategy` (analyzer.py). -/
def determineStrategy (query_type : Str) (sub_queries : List Str) : Str :=
  if query_type = str "comparative" ∨ query_type = str "aggregative" then
    str "multi"
  else if query_type = str "analytical" ∧ 1 < sub_queries.length then
    str "iterative"
  else str "single"

/-- `analyze_query` (analyzer.py), rule-based branch; the orchestrator
always calls it with `use_llm=False`, so the LLM branch is never taken
there and is not modelled. -/
def analyze_query (wc : Char → Bool) (query : Str) : QueryAnalysis :=
  let tc := classifyQuery wc query
  let sub_queries := decomposeQuery query tc.1
  { query_type := tc.1
    sub_queries := sub_queries
    retrieval_strategy := determineStrategy tc.1 sub_queries
    reasoning_required :=
      tc.1 = str "comparative" ∨ tc.1 = str "analytical"
    confidence := tc.2 }

/- =====================  citation id extraction  ====================== -/

/-- The id character class `[A-Za-z0-9_\-:.]`. -/
def isIdChar (c : Char) : Bool :=
  c.isAlphanum || c = '_' || c = '-' || c = ':' || c = '.'

/-- `re.findall(r"\[ID:([A-Za-z0-9_\-:.]+)\]", text)`: left-to-right,
non-overlapping.  Fuel is the remaining text length (each step consumes at
least one character, so the initial length is always enough). -/
def findBracketedAux : ℕ → Str → List Str
  | 0, _ => []
  | _ + 1, [] => []
  | fuel + 1, c :: rest =>
    if c = '[' ∧ rest.take 3 = str "ID:" then
      let after := rest.drop 3
      let ids := after.takeWhile isIdChar
      if ids ≠ [] ∧ (after.drop ids.length).head? = some ']' then
        ids :: findBracketedAux fuel (after.drop (ids.length + 1))
      else findBracketedAux fuel rest
    else findBracketedAux fuel rest

/-- `re.findall(r"(?<!\[)ID:([A-Za-z0-9_\-:.]+)", text)`: the lookbehind
rejects a match whose previous character is `[`. -/
def findPlainAux : ℕ → Option Char → Str → List Str
  | 0, _, _ => []
  | _ + 1, _, [] => []
  | fuel + 1, prev, c :: rest =>
    if c = 'I' ∧ rest.take 2 = str "D:" ∧ prev ≠ some '[' then
      let after := rest.drop 2
      let ids := after.takeWhile isIdChar
      if ids ≠ [] then
        ids :: findPlainAux fuel (some (ids.getLastD 'x')) (after.drop ids.length)
      else findPlainAux fuel (some c) rest
    else findPlainAux fuel (some c) rest

/-- Order-preserving deduplication with a `seen` set, as in the source. -/
def dedupFirstAux (seen : List Str) : List Str → List Str
  | [] => []
  | x :: xs =>
    if x ∈ seen then dedupFirstAux seen xs
    else x :: dedupFirstAux (x :: seen) xs

/-- `_extract_cited_ids_from_llm` (orchestrator.py): bracketed matches
first, then plain ones, deduplicated preserving order. -/
def extractCitedIds (text : Str) : List Str :=
  if text = [] then []
  else
    dedupFirstAux []
      (findBracketedAux text.length text ++ findPlainAux text.length none text)

/- =====================  chain.py : reasoning  ======================== -/

/-- Result record of `reason_over_evidence`. -/
structure ReasoningResult where
  answer : Str
  reasoning_steps : List Str
  evidence_used : List Str
  confidence : ℚ
  reasoning_type : Str
deriving DecidableEq, Repr

/-- `_format_evidence`: numbered, id-tagged blocks truncated to 800
characters (an absent/empty id falls back to `chunk_<i>`). -/
def formatEvidence (chunks : List Chunk) : Str :=
  List.intercalate (str "\n\n") (chunks.enum.map (fun p =>
    let cid := if p.2.id = [] then str "chunk_" ++ natToStr (p.1 + 1) else p.2.id
    ('[' :: cid) ++ str "]\n" ++ p.2.getText.take 800))

/-- Match `\s*([^\n]+)` at this point, returning the capture and the
remainder after the match.  When only whitespace remains the greedy
`\s*` backs off one char at a time, so the capture is the single last
non-newline whitespace char of the run and the remainder its trailing
newlines. -/
def capWsRest (a : Str) : Option (Str × Str) :=
  let wsr := a.takeWhile pyIsSpace
  let b2 := a.drop wsr.length
  if b2 ≠ [] then
    let cap := b2.takeWhile (fun c => decide (c ≠ '\n'))
    some (cap, b2.drop cap.length)
  else
    let nls := wsr.reverse.takeWhile (fun c => decide (c = '\n'))
    match wsr.reverse.drop nls.length with
    | [] => none
    | c :: _ => some ([c], nls.reverse)

/-- `re.findall(r'\d+\.\s*([^\n]+)', text)`. -/
def findNumberedAux : ℕ → Str → List Str
  | 0, _ => []
  | _ + 1, [] => []
  | fuel + 1, c :: rest =>
    if c.isDigit then
      let s := c :: rest
      let ds := s.takeWhile Char.isDigit
      match s.drop ds.length with
      | '.' :: a2 =>
        match capWsRest a2 with
        | some r => r.1 :: findNumberedAux fuel r.2
        | none => findNumberedAux fuel rest
      | _ => findNumberedAux fuel rest
    else findNumberedAux fuel rest

/-- The bullet character class of the source, which literally reads
`[-â€¢]` (a mojibake of the bullet character): `-`, `â`, `€`, `¢`. -/
def isBulletChar (c : Char) : Bool :=
  c = '-' || c = 'â' || c = '€' || c = '¢'

/-- `re.findall(r'[-â€¢]\s*([^\n]+)', text)`. -/
def findBulletsAux : ℕ → Str → List Str
  | 0, _ => []
  | _ + 1, [] => []
  | fuel + 1, c :: rest =>
    if isBulletChar c then
      match capWsRest rest with
      | some r => r.1 :: findBulletsAux fuel r.2
      | none => findBulletsAux fuel rest
    else findBulletsAux fuel rest

/-- `_extract_reasoning_steps` (chain.py): numbered list, bullet list,
else the first 5 sentences longer than 20 characters. -/
def extractReasoningSteps (text : Str) : List Str :=
  let steps := findNumberedAux text.length text ++ findBulletsAux text.length text
  if steps = [] then
    let sentences := splitSentRaw text
    ((sentences.take 5).filter (fun s => decide (20 < s.length))).map pyStrip
  else steps

/-- `re.findall(r'\[?ID:([A-Za-z0-9_\-:.]+)\]?', text)`. -/
def findEvidenceIdsAux : ℕ → Str → List Str
  | 0, _ => []
  | _ + 1, [] => []
  | fuel + 1, c :: rest =>
    if c = '[' ∧ rest.take 3 = str "ID:" then
      let after := rest.drop 3
      let ids := after.takeWhile isIdChar
      if ids ≠ [] then
        let after2 := after.drop ids.length
        let rem := if after2.head? = some ']' then after2.drop 1 else after2
        ids :: findEvidenceIdsAux fuel rem
      else findEvidenceIdsAux fuel rest
    else if c = 'I' ∧ rest.take 2 = str "D:" then
      let after := rest.drop 2
      let ids := after.takeWhile isIdChar
      if ids ≠ [] then
        let after2 := after.drop ids.length
        let rem := if after2.head? = some ']' then after2.drop 1 else after2
        ids :: findEvidenceIdsAux fuel rem
      else findEvidenceIdsAux fuel rest
    else findEvidenceIdsAux fuel rest

/-- `_extract_evidence_ids` (chain.py): `list(set(ids))`.  Python set
iteration order is unspecified; it is modelled as first-occurrence order
(only membership and cardinality are consumed downstream). -/
def extractEvidenceIds (text : Str) : List Str :=
  dedupFirstAux [] (findEvidenceIdsAux text.length text)

/-- `SYNTHESIS_PROMPT` of chain.py, with placeholders spliced. -/
def synthesisPrompt (query evidence : Str) : Str :=
  str "Based on the evidence below, answer the query.\nShow your reasoning step by step, then provide the final answer.\n\nQuery: " ++
  query ++ str "\n\nEvidence:\n" ++ evidence ++
  str "\n\nFirst, analyze each piece of evidence and its relevance.\nThen, synthesize the information to form a complete answer.\nFinally, provide your answer with citations [ID:chunk_id].\n\nReasoning and Answer:"

/-- `COMPARATIVE_PROMPT` of chain.py, with placeholders spliced. -/
def comparativePrompt (query evidence : Str) : Str :=
  str "Compare the following based on the evidence provided.\n\nQuery: " ++
  query ++ str "\n\nEvidence:\n" ++ evidence ++
  str "\n\nStructure your response as:\n1. Key aspects of the first subject\n2. Key aspects of the second subject\n3. Similarities\n4. Differences\n5. Conclusion\n\nInclude citations [ID:chunk_id] for each claim.\n\nComparison:"

/-- `ANALYTICAL_PROMPT` of chain.py, with placeholders spliced. -/
def analyticalPrompt (query evidence : Str) : Str :=
  str "Analyze and explain based on the evidence provided.\n\nQuery: " ++
  query ++ str "\n\nEvidence:\n" ++ evidence ++
  str "\n\nStructure your response as:\n1. Identify the main factors/causes\n2. Explain the relationships between them\n3. Draw conclusions\n4. Note any limitations in the available evidence\n\nInclude citations [ID:chunk_id] for each claim.\n\nAnalysis:"

/-- `reason_over_evidence` (chain.py): abstain with confidence 0 on zero
chunks, degrade on provider unavailability or a raising call, otherwise
answer with extracted steps, citations and the citation-count
confidence heuristic `min(0.9, 0.3 + 0.1 * n)`. -/
def reason_over_evidence (llm : LLMOracle) (query : Str)
    (chunks : List Chunk) (query_type : Str := str "factual") :
    ReasoningResult :=
  if chunks = [] then
    { answer := str "I don\x27t have enough information to answer this question."
      reasoning_steps := [str "No relevant evidence found"]
      evidence_used := [], confidence := 0, reasoning_type := str "no_evidence" }
  else if !llm.importOk then
    { answer := str "LLM not available for reasoning."
      reasoning_steps := [], evidence_used := []
      confidence := 0, reasoning_type := str "error" }
  else
    let evidence := formatEvidence chunks
    let pr :=
      if query_type = str "comparative" then
        (comparativePrompt query evidence, str "comparative")
      else if query_type = str "analytical" then
        (analyticalPrompt query evidence, str "analytical")
      else (synthesisPrompt query evidence, str "synthesis")
    match llm.call pr.1 0 800 with
    | Except.error e =>
      { answer := str "Error during reasoning: " ++ e.take 100
        reasoning_steps := [], evidence_used := []
        confidence := 0, reasoning_type := str "error" }
    | Except.ok resp =>
      let text := pyStrip resp.text
      let ids := extractEvidenceIds text
      { answer := text
        reasoning_steps := extractReasoningSteps text
        evidence_used := ids
        confidence := min (9/10) (3/10 + (1/10) * (ids.length : ℚ))
        reasoning_type := pr.2 }

/- =====================  rag_prompt.py : prompt building  ============= -/

/-- Zero-padded 3-digit rendering. -/
def pad3 (n : ℕ) : Str :=
  if n < 10 then '0' :: '0' :: natToStr n
  else if n < 100 then '0' :: natToStr n
  else natToStr n

/-- `f"{score:.3f}"`: fixed 3-decimal rendering with round half to even,
modelled exactly on rationals. -/
def formatScore3 (q : ℚ) : Str :=
  let m : ℚ := q * 1000
  let fl : ℤ := ⌊m⌋
  let frac : ℚ := m - fl
  let n : ℤ :=
    if 1/2 < frac then fl + 1
    else if frac < 1/2 then fl
    else if fl % 2 = 0 then fl else fl + 1
  let a := n.natAbs
  (if n < 0 then ['-'] else []) ++ natToStr (a / 1000) ++ '.' :: pad3 (a % 1000)

/-- `format_chunk` (rag_prompt.py); an absent id (modelled as the empty
id) falls back to `chunk_<index>`. -/
def format_chunk (c : Chunk) (index : ℕ) : Str :=
  let chunk_id := if c.id = [] then str "chunk_" ++ natToStr index else c.id
  let score_line := match c.score with
    | some s => str "Relevance Score: " ++ formatScore3 s
    | none => []
  str "---\nChunk ID: " ++ chunk_id ++ '\n' :: score_line ++
  str "\nContent:\n" ++ c.getText ++ str "\n---"

/-- `SYSTEM_PROMPT` of rag_prompt.py. -/
def SYSTEM_PROMPT : Str :=
  str "You are a document assistant. You answer questions using ONLY the provided context.\nYou are precise, concise, and always cite your sources."

/-- `DEVELOPER_PROMPT` of rag_prompt.py. -/
def DEVELOPER_PROMPT : Str :=
  str "## Grounding Rules\n- Answer ONLY using information from the CONTEXT section below\n- If the context doesn\x27t contain enough information to answer, say \"I don\x27t have enough information to answer this based on the provided documents\"\n- NEVER fabricate or infer information not explicitly present in the context\n- Keep answers under 3 paragraphs unless the query explicitly asks for detail\n\n## Citation Format\n- Cite sources inline using [ID:chunk_id] format immediately after the relevant claim\n- Every factual claim MUST have a citation\n- At the end of your answer, list all cited chunks under \"Sources:\" with their IDs"

/-- `build_rag_prompt` (rag_prompt.py). -/
def build_rag_prompt (query : Str) (chunks : List Chunk) (k : ℕ := 5)
    (include_scores : Bool := true) : Str :=
  let chunk_strs := (chunks.take k).enum.map (fun p =>
    if !include_scores then format_chunk { p.2 with score := none } p.1
    else format_chunk p.2 p.1)
  let formatted_chunks :=
    if chunk_strs = [] then str "(No relevant context found)"
    else List.intercalate (str "\n\n") chunk_strs
  SYSTEM_PROMPT ++ str "\n\n" ++ DEVELOPER_PROMPT ++ str "\n\n" ++
  str "## Context Chunks\nThe following are relevant excerpts from the document corpus, ranked by relevance:\n\n" ++
  formatted_chunks ++ str "\n\n" ++ str "## Question\n" ++ query ++
  str "\n\n## Answer"

/- =====================  orchestrator.py  ============================= -/

/-- `chunk_data` update for `_merge_chunks`: keep the first occurrence. -/
def addDataPlain (m : List (Str × Chunk)) (k : Str) (c : Chunk) :
    List (Str × Chunk) :=
  match m with
  | [] => [(k, c)]
  | (k', c') :: rest =>
    if k' = k then (k', c') :: rest else (k', c') :: addDataPlain rest k c

/-- One enumeration pass of `_merge_chunks` over a single result list
(unweighted RRF contributions `1 / (60 + rank + 1)`). -/
def mergeProcScores : ℕ → List Chunk → List (Str × ℚ) → List (Str × ℚ)
  | _, [], m => m
  | rank, c :: rest, m =>
    if c.id = [] then mergeProcScores (rank + 1) rest m
    else mergeProcScores (rank + 1) rest
      (addScore m c.id (1 / (60 + (rank : ℚ) + 1)))

/-- The matching `chunk_data` pass of `_merge_chunks`. -/
def mergeProcData : ℕ → List Chunk → List (Str × Chunk) → List (Str × Chunk)
  | _, [], m => m
  | rank, c :: rest, m =>
    if c.id = [] then mergeProcData (rank + 1) rest m
    else mergeProcData (rank + 1) rest (addDataPlain m c.id c)

/-- `_merge_chunks` (orchestrator.py): RRF merge across per-query result
lists, sorted by combined score descending, truncated to `top_k`, each
chunk annotated with its `rrf_score`. -/
def mergeChunks (chunk_lists : List (List Chunk)) (top_k : ℕ) : List Chunk :=
  let m := chunk_lists.foldl (fun acc l => mergeProcScores 0 l acc) []
  let d := chunk_lists.foldl (fun acc l => mergeProcData 0 l acc) []
  let sorted_ids := (alistKeys m).mergeSort
    (fun a b => decide (scoreOf m b ≤ scoreOf m a))
  (sorted_ids.take top_k).filterMap (fun k =>
    (alistFind d k).map (fun c => { c with rrfScore := some (scoreOf m k) }))

/-- All external collaborators and process-wide state consumed by the
orchestrator: Pinecone semantic search, the BM25 keyword search (query,
k, chunks path), the cross-encoder, the generation provider, the sentence
similarity function of the shaper and the module-level chunks map. -/
structure Oracles where
  semanticSearch : Str → ℕ → Except Str (List Chunk)
  reWordChar : Char → Bool := isWordChar
  keywordSearch : Str → ℕ → Str → Except Str (List Chunk)
  encoder : CrossEncoderOracle
  llm : LLMOracle
  sim : Str → Str → ℚ
  chunksMap : Str → Option Str
  currentChunksPath : Str := str "data/chunks.jsonl"

/-- The orchestrator's local `call_llm`: the provider wrapper when
importing it succeeded, else the deterministic offline fallback responder
(which never raises). -/
def offlineCallLLM (prompt : Str) (_temperature : ℚ) : LLMResp :=
  let p := pyStrip prompt
  let summary := if p = [] then str "No prompt provided"
    else (splitOnChar '\n' p).getLastD []
  { text := str "[offline-llm] Answer based on provided context: " ++ summary
    metaProvider := str "local-fallback" }

/-- `call_llm` as seen from orchestrator.py. -/
def orchCallLLM (O : Oracles) (prompt : Str) (t : ℚ) (mt : ℤ) :
    Except Str LLMResp :=
  if O.llm.importOk then O.llm.call prompt t mt
  else Except.ok (offlineCallLLM prompt t)

/-- An entry of the `sources`/`citations` lists (empty id models a falsy
`c.get("id")`). -/
structure SourceEntry where
  id : Str
  score : ℚ
  snippet : Str
deriving DecidableEq, Repr

/-- The `llm_meta` field: either an error dict or the response meta. -/
structure LLMMeta where
  error : Option Str := none
  provider : Option Str := none
deriving DecidableEq, Repr

/-- The `query_rewrite` sub-dict of the result. -/
structure QueryRewriteInfo where
  original : Str
  rewritten : List Str
  strategy : Str
deriving DecidableEq, Repr

/-- The `retrieval_meta` sub-dict of the result. -/
structure RetrievalMeta where
  hybrid_enabled : Bool
  reranking_enabled : Bool
  hybrid_strategy : Option Str := none
  semantic_count : Option ℕ := none
  keyword_count : Option ℕ := none
  rerank_model : Option Str := none
  reranked : Option Bool := none
deriving DecidableEq, Repr

/-- The result dict of `orchestrate_query`. -/
structure OrchestrateResult where
  answer : Str
  sources : List SourceEntry
  citations : List SourceEntry
  llmMeta : LLMMeta
  queryRewrite : Option QueryRewriteInfo := none
  retrievalMeta : Option RetrievalMeta := none
deriving DecidableEq, Repr

/-- An early-exit result carrying only an error code in `llm_meta`. -/
def errorResult (code : Str) : OrchestrateResult :=
  { answer := [], sources := [], citations := []
    llmMeta := { error := some code } }

/-- One iteration of the retrieval loop of `orchestrate_query` (step 2):
hybrid or semantic-only retrieval for one rewritten query, with a raise
caught as a skip, accumulating result lists and retrieval metadata. -/
def retrievalStep (O : Oracles) (use_hybrid use_reranking : Bool)
    (top_k : ℕ) (ws wk : ℚ) (chunks_path : Str)
    (st : List (List Chunk) × RetrievalMeta) (q : Str) :
    List (List Chunk) × RetrievalMeta :=
  if use_hybrid then
    let fetch_k := if use_reranking then top_k * 3 else top_k * 2
    let out : RetrievalOutcome :=
      { semanticRes := O.semanticSearch q (2 * fetch_k)
        keywordRes := O.keywordSearch q (2 * fetch_k) chunks_path }
    let hr := hybrid_search out fetch_k ws wk
    if hr.chunks ≠ [] then
      (st.1 ++ [hr.chunks],
       { st.2 with
         hybrid_strategy := some hr.strategy
         semantic_count := some hr.semantic_count
         keyword_count := some hr.keyword_count })
    else st
  else
    match O.semanticSearch q (if use_reranking then top_k * 2 else top_k) with
    | Except.error _ => st
    | Except.ok chunks =>
      if chunks ≠ [] then (st.1 ++ [chunks], st.2) else st

/-- Snippet source text for a chunk (step 7): the chunk's own text, else
the module chunks map keyed by `str(c.get("id"))` falling back to
`str(...)` of the `chunk_id` key. -/
def snippetText (O : Oracles) (c : Chunk) : Str :=
  let t := c.getText
  if t = [] then
    let t1 := (O.chunksMap c.id).getD []
    if t1 ≠ [] then t1
    else (O.chunksMap (c.chunkId.getD (str "None"))).getD []
  else t

/-- The last source whose id equals `cid` (Python dict comprehension
semantics: a later duplicate id overwrites an earlier one). -/
def lastWithId (sources : List SourceEntry) (cid : Str) : Option SourceEntry :=
  (sources.filter (fun s => s.id = cid)).getLast?

/-- Snippet enrichment of one entry from the module chunks map
(`_enrich_citations_with_snippets`). -/
def enrichEntry (O : Oracles) (e : SourceEntry) : SourceEntry :=
  if e.snippet = [] then
    let s := (O.chunksMap e.id).getD []
    if s ≠ [] then { e with snippet := s } else e
  else e

/-- Steps 5–9 of `orchestrate_query`: build the structured prompt, call
the generation provider (a raise is caught and tagged
`llm_call_failed`), assemble sources, citations (the LLM-cited ids that
match a source, else all sources) and the result dict, and enrich empty
snippets from the chunks map. -/
def orchestrateGenerate (O : Oracles) (query : Str)
    (rw : Option QueryRewriteResult) (queries_to_search : List Str)
    (meta : RetrievalMeta) (chunks : List Chunk) (top_k : ℕ)
    (lp : ℚ × ℤ) : Except Str OrchestrateResult :=
  let prompt := build_rag_prompt query chunks top_k
  match orchCallLLM O prompt lp.1 lp.2 with
  | Except.error e =>
    Except.ok (errorResult (str "llm_call_failed: " ++ e))
  | Except.ok resp =>
    let sources := chunks.map (fun c =>
      { id := c.id, score := c.score.getD 0
        snippet := (snippetText O c).take 400 })
    let cited_ids := extractCitedIds resp.text
    let citations := cited_ids.filterMap (lastWithId
      (sources.filter (fun s => s.id ≠ [])))
    let citations := if citations = [] then sources else citations
    Except.ok
      { answer := pyStrip resp.text
        sources := sources.map (enrichEntry O)
        citations := citations.map (enrichEntry O)
        llmMeta := { provider := some resp.metaProvider }
        queryRewrite := rw.map (fun r =>
          { original := query, rewritten := queries_to_search
            strategy := r.strategy_used })
        retrievalMeta := some meta }

/-- Steps 3–9 of `orchestrate_query`, given the retrieval loop state:
merge result lists when several queries were searched, bail out with
`no_retrieval_results` on an empty merge, optionally rerank, then build
the prompt, generate and assemble. -/
def orchestrateAfterRetrieval (O : Oracles) (query : Str)
    (rw : Option QueryRewriteResult) (queries_to_search : List Str)
    (st : List (List Chunk) × RetrievalMeta) (top_k : ℕ)
    (use_reranking : Bool) (lp : ℚ × ℤ) : Except Str OrchestrateResult :=
  if st.1 = [] then Except.ok (errorResult (str "retrieval_failed"))
  else
    let chunks := if st.1.length = 1 then st.1.headD []
      else mergeChunks st.1 (if use_reranking then top_k * 2 else top_k)
    if chunks = [] then Except.ok (errorResult (str "no_retrieval_results"))
    else
      let cm :=
        if use_reranking ∧ 1 < chunks.length then
          let rr := rerank_chunks O.encoder query chunks top_k
          (rr.chunks,
           { st.2 with rerank_model := some rr.model_used
                       reranked := some rr.reranked })
        else (chunks.take top_k, st.2)
      orchestrateGenerate O query rw queries_to_search cm.2 cm.1 top_k lp

/-- `orchestrate_query` (orchestrator.py).  The return type is
`Except Str OrchestrateResult`: a `.error` value would model an exception
reaching the caller; every Python `try/except` is an explicit match, so
each branch below ends in `.ok`.  Defaults mirror the source
(`top_k=3`, `temperature=0.0`, `max_tokens=512`, weights 0.7/0.3). -/
def orchestrate_query (O : Oracles) (query : Str) (top_k : ℤ := 3)
    (llm_params : Option (ℚ × ℤ) := none)
    (rewrite_strategy : Option Str := some (str "auto"))
    (use_hybrid : Bool := true) (use_reranking : Bool := true)
    (semantic_weight : ℚ := 7/10) (keyword_weight : ℚ := 3/10)
    (chunks_path : Option Str := none) : Except Str OrchestrateResult :=
  if query = [] then Except.ok (errorResult (str "invalid_query"))
  else
    let lp := llm_params.getD (0, 512)
    let cp := chunks_path.getD O.currentChunksPath
    let top_k : ℕ := if top_k ≤ 0 then 3 else top_k.toNat
    let meta0 : RetrievalMeta :=
      { hybrid_enabled := use_hybrid, reranking_enabled := use_reranking }
    let rw : Option QueryRewriteResult :=
      if rewrite_strategy ≠ none ∧ rewrite_strategy ≠ some [] ∧
          rewrite_strategy ≠ some (str "none") then
        some (rewrite_query O.reWordChar O.llm query 3 rewrite_strategy
          (decide (rewrite_strategy ≠ some (str "expand"))))
      else none
    let queries_to_search := match rw with
      | some r => r.rewritten_queries
      | none => [query]
    let st := queries_to_search.foldl
      (retrievalStep O use_hybrid use_reranking top_k
        semantic_weight keyword_weight cp) ([], meta0)
    orchestrateAfterRetrieval O query rw queries_to_search st top_k
      use_reranking lp

/-- The `query_analysis` sub-dict of the advanced result. -/
structure QueryAnalysisInfo where
  qtype : Str
  sub_queries : List Str
  reasoning_required : Bool
deriving DecidableEq, Repr

/-- The `context_shaping` sub-dict of the advanced result. -/
structure ShapingInfo where
  original_tokens : ℤ
  final_tokens : ℤ
  compression_applied : Bool
deriving DecidableEq, Repr

/-- The `reasoning` sub-dict of the advanced result. -/
structure ReasoningInfo where
  steps : List Str
  evidence_used : List Str
  confidence : ℚ
  rtype : Str
deriving DecidableEq, Repr

/-- The result dict of `orchestrate_advanced`.  Trace contents are
timing-based I/O and are modelled only by the `traceAttached` flag. -/
structure AdvancedResult where
  answer : Str
  error : Option Str := none
  sources : List SourceEntry := []
  queryAnalysis : Option QueryAnalysisInfo := none
  contextShaping : Option ShapingInfo := none
  reasoning : Option ReasoningInfo := none
  traceAttached : Bool := false
deriving DecidableEq, Repr

/-- Cross-query id deduplication of `orchestrate_advanced` (chunks with a
falsy id are dropped, first occurrence wins). -/
def dedupByIdKeepFirst (seen : List Str) : List Chunk → List Chunk
  | [] => []
  | c :: rest =>
    if c.id ≠ [] ∧ c.id ∉ seen then
      c :: dedupByIdKeepFirst (c.id :: seen) rest
    else dedupByIdKeepFirst seen rest

/-- The `sources` list of the advanced result. -/
def advSources (chunks : List Chunk) : List SourceEntry :=
  chunks.map (fun c =>
    { id := c.id, score := c.score.getD 0, snippet := c.getText.take 300 })

/-- The body of the outer `try` of `orchestrate_advanced`.  The one
fallible call not wrapped in a component-internal catch is the direct
`call_llm` of the standard-generation branch: its raise propagates out of
this body (the `with tracer.trace_stage(...)` context manager of the
source records and re-raises — `__exit__` returns `False`). -/
def advancedCore (O : Oracles) (query : Str) (top_k : ℕ)
    (lp : ℚ × ℤ) (token_budget : ℤ) (enable_reasoning : Bool)
    (tracing : Bool) (chunks_path : Str) : Except Str AdvancedResult :=
  let analysis := analyze_query O.reWordChar query
  let rewrite_result := rewrite_query O.reWordChar O.llm query 3
    (some (str "auto")) true
  let queries_to_search := rewrite_result.rewritten_queries
  let all_chunks := (queries_to_search.map (fun q =>
    (hybrid_search
      { semanticRes := O.semanticSearch q (2 * (top_k * 2))
        keywordRes := O.keywordSearch q (2 * (top_k * 2)) chunks_path }
      (top_k * 2) (7/10) (3/10)).chunks)).flatten
  if all_chunks = [] then
    Except.ok { answer := [], error := some (str "No chunks retrieved") }
  else
    let unique_chunks := dedupByIdKeepFirst [] all_chunks
    let rerank_result := rerank_chunks O.encoder query unique_chunks (top_k * 2)
    let shape_result := shape_context O.sim O.llm rerank_result.chunks query
      token_budget
    let shaped_chunks := shape_result.chunks.take top_k
    let qa : QueryAnalysisInfo :=
      { qtype := analysis.query_type, sub_queries := analysis.sub_queries
        reasoning_required := analysis.reasoning_required }
    let cs : ShapingInfo :=
      { original_tokens := shape_result.original_tokens
        final_tokens := shape_result.final_tokens
        compression_applied := shape_result.compression_applied }
    if enable_reasoning ∧ analysis.reasoning_required then
      let rr := reason_over_evidence O.llm query shaped_chunks
        analysis.query_type
      Except.ok
        { answer := rr.answer
          sources := advSources shaped_chunks
          queryAnalysis := some qa
          contextShaping := some cs
          reasoning := some
            { steps := rr.reasoning_steps, evidence_used := rr.evidence_used
              confidence := rr.confidence, rtype := rr.reasoning_type }
          traceAttached := tracing }
    else
      match orchCallLLM O (build_rag_prompt query shaped_chunks top_k)
          lp.1 lp.2 with
      | Except.error e => Except.error e
      | Except.ok resp =>
        Except.ok
          { answer := pyStrip resp.text
            sources := advSources shaped_chunks
            queryAnalysis := some qa
            contextShaping := some cs
            traceAttached := tracing }

/-- `orchestrate_advanced` (orchestrator.py).  The outer `except` returns
an error-tagged result dict when a tracer exists and **re-raises**
(`Except.error`) when tracing is disabled.  Defaults mirror the source
(`top_k=5`, `temperature=0.0`, `max_tokens=800`, `token_budget=3000`). -/
def orchestrate_advanced (O : Oracles) (query : Str) (top_k : ℕ := 5)
    (llm_params : Option (ℚ × ℤ) := none) (token_budget : ℤ := 3000)
    (enable_reasoning : Bool := true) (enable_tracing : Bool := true)
    (chunks_path : Option Str := none) : Except Str AdvancedResult :=
  let lp := llm_params.getD (0, 800)
  let cp := chunks_path.getD O.currentChunksPath
  match advancedCore O query top_k lp token_budget enable_reasoning
      enable_tracing cp with
  | Except.ok r => Except.ok r
  | Except.error e =>
    if enable_tracing then
      Except.ok { answer := [], error := some e, traceAttached := true }
    else Except.error e

/-- Decidable equality of model exception results. -/
instance {ε α : Type} [DecidableEq ε] [DecidableEq α] : DecidableEq (Except ε α)
  | Except.error e, Except.error e' =>
    if h : e = e' then isTrue (by rw [h])
    else isFalse (fun hh => h (Except.error.inj hh))
  | Except.error _, Except.ok _ => isFalse (fun hh => Except.noConfusion hh)
  | Except.ok _, Except.error _ => isFalse (fun hh => Except.noConfusion hh)
  | Except.ok a, Except.ok a' =>
    if h : a = a' then isTrue (by rw [h])
    else isFalse (fun hh => h (Except.ok.inj hh))

/- =====================  proof-support predicates  ==================== -/

/-- Greedy-cleanliness of a chunk list w.r.t. a kept prefix: each element
is dissimilar (below threshold) to every chunk kept before it.  This is
the invariant established by one deduplication pass. -/
def cleanList (sim : Str → Str → ℚ) (th : ℚ) :
    List Chunk → List Chunk → Prop
  | _, [] => True
  | kept, c :: rest =>
    (∀ k ∈ kept, sim c.getText k.getText < th) ∧
      cleanList sim th (kept ++ [c]) rest

/- =====================  concrete instances  ========================== -/

/-- A tiny chunk whose text is far below the allocation floor. -/
def exTinyChunk : Chunk := { id := str "c1", text := some (str "hi") }

/-- Keyword-result chunks for the degradation scenario. -/
def exK1 : Chunk := { id := str "k1", text := some (str "alpha"), score := some 1 }

/-- Second keyword-result chunk. -/
def exK2 : Chunk := { id := str "k2", text := some (str "beta"), score := some (1/2) }

/-- Third keyword-result chunk. -/
def exK3 : Chunk := { id := str "k3", text := some (str "gamma"), score := some (1/4) }

/-- A generation provider whose import works but whose calls raise. -/
def exLLMDown : LLMOracle :=
  { importOk := true, call := fun _ _ _ => Except.error (str "boom") }

/-- A generation provider answering every call with five lines, the last
of which is the query `my query` itself. -/
def exLLMFive : LLMOracle :=
  { importOk := true
    call := fun _ _ _ => Except.ok
      { text := str "alpha one\nbeta two\ngamma three\ndelta four\nmy query" } }

/-- A cross-encoder whose model load raises. -/
def exEncoderDown : CrossEncoderOracle :=
  { load := Except.error (str "load failed")
    predict := fun _ => Except.error (str "predict failed") }

/-- A generator whose provider import failed (`LLM_AVAILABLE = False`). -/
def exLLMUnavail : LLMOracle :=
  { importOk := false, call := fun _ _ _ => Except.error (str "unreachable") }

/-- Oracles where only the keyword source answers (one chunk) and the
generation provider raises. -/
def exOraclesAdv : Oracles :=
  { semanticSearch := fun _ _ => Except.error (str "pinecone down")
    keywordSearch := fun _ _ _ => Except.ok
      [{ id := str "k1", text := some (str "some text"), score := some 1 }]
    encoder := exEncoderDown
    llm := exLLMDown
    sim := fun _ _ => 0
    chunksMap := fun _ => none }

/- =====================  theorems  ==================================== -/

/-- The seen-set deduplication returns a sublist of its input (order is
preserved). -/
theorem dedupFirstAux_sublist (seen : List Str) (l : List Str) :
    (dedupFirstAux seen l).Sublist l := by
  induction l generalizing seen with
  | nil => simp [dedupFirstAux]
  | cons x xs ih =>
    simp only [dedupFirstAux]
    split
    · exact (ih seen).trans (List.sublist_cons_self x xs)
    · exact (ih _).cons₂ x

/-- The seen-set deduplication has no duplicates and avoids `seen`. -/
theorem dedupFirstAux_spec (seen : List Str) (l : List Str) :
    (dedupFirstAux seen l).Nodup ∧ ∀ x ∈ dedupFirstAux seen l, x ∉ seen := by
  induction l generalizing seen with
  | nil => simp [dedupFirstAux]
  | cons x xs ih =>
    simp only [dedupFirstAux]
    split
    · exact ih seen
    · rename_i hx
      obtain ⟨h1, h2⟩ := ih (x :: seen)
      refine ⟨List.nodup_cons.mpr
        ⟨fun hm => (h2 x hm) (List.mem_cons_self x seen), h1⟩, ?_⟩
      intro y hy
      rcases List.mem_cons.mp hy with rfl | hy'
      · exact hx
      · exact fun hs => (h2 y hy') (List.mem_cons_of_mem _ hs)

/-- C7: citation extraction over the `[ID:<chunk_id>]` pattern is
order-preserving and deduplicating: on
`"Answer [ID:a1] and [ID:a1] again [ID:b2]"` it yields exactly
`["a1", "b2"]`, and in general the deduplication stage keeps the first
occurrence of each id, in order (its output is a duplicate-free sublist
of the matched ids). -/
theorem extract_cited_ids_order_dedup :
    extractCitedIds (str "Answer [ID:a1] and [ID:a1] again [ID:b2]") =
      [str "a1", str "b2"] ∧
    ∀ l : List Str, (dedupFirstAux [] l).Nodup ∧ (dedupFirstAux [] l).Sublist l := by
  refine ⟨by decide, fun l => ⟨(dedupFirstAux_spec [] l).1, dedupFirstAux_sublist [] l⟩⟩

/-- C3: `hybrid_search` isolates the two retriever calls.  A source that
raised or returned nothing contributes the empty list (`semChunksOf` /
`kwChunksOf`); if exactly one source is empty this way, the strategy
degrades to `semantic_only` / `keyword_only` and the call still succeeds
with the surviving source's chunks truncated to `top_k` (and the failed
source's count 0); if both are empty the strategy is `none` with no
chunks. -/
theorem hybrid_search_isolation (semRes kwRes : Except Str (List Chunk))
    (top_k : ℕ) (ws wk : ℚ) :
    (semChunksOf semRes = [] → kwChunksOf kwRes ≠ [] →
      hybrid_search ⟨semRes, kwRes⟩ top_k ws wk =
        { chunks := (kwChunksOf kwRes).take top_k
          semantic_count := 0
          keyword_count := (kwChunksOf kwRes).length
          strategy := str "keyword_only" }) ∧
    (semChunksOf semRes ≠ [] → kwChunksOf kwRes = [] →
      hybrid_search ⟨semRes, kwRes⟩ top_k ws wk =
        { chunks := (semChunksOf semRes).take top_k
          semantic_count := (semChunksOf semRes).length
          keyword_count := 0
          strategy := str "semantic_only" }) ∧
    (semChunksOf semRes = [] → kwChunksOf kwRes = [] →
      hybrid_search ⟨semRes, kwRes⟩ top_k ws wk =
        { chunks := []
          semantic_count := 0
          keyword_count := 0
          strategy := str "none" }) := by
  refine ⟨fun h1 h2 => ?_, fun h1 h2 => ?_, fun h1 h2 => ?_⟩ <;>
    simp [hybrid_search, h1, h2]

/-- C3 witness: the semantic source raises and the keyword source returns
3 chunks; the strategy is `keyword_only` with counts 0 and 3 and the
keyword chunks pass through. -/
theorem hybrid_search_isolation_witness :
    hybrid_search
        ⟨Except.error (str "pinecone down"), Except.ok [exK1, exK2, exK3]⟩
        10 (7/10) (3/10) =
      { chunks := [exK1, exK2, exK3]
        semantic_count := 0
        keyword_count := 3
        strategy := str "keyword_only" } := by
  have h := (hybrid_search_isolation (Except.error (str "pinecone down"))
    (Except.ok [exK1, exK2, exK3]) 10 (7/10) (3/10)).1 rfl (by decide)
  simpa using h

/-- C4, part of the error contract: a raising model load makes the
scoring core raise. -/
theorem rerankCore_error_of_load (enc : CrossEncoderOracle) (q : Str)
    (chunks : List Chunk) (top_k : ℕ) (e : Str)
    (h : enc.load = Except.error e) :
    rerankCore enc q chunks top_k = Except.error e := by
  simp only [rerankCore, h]
  rfl

/-- C4, part of the error contract: a raising `predict` call makes the
scoring core raise. -/
theorem rerankCore_error_of_predict (enc : CrossEncoderOracle) (q : Str)
    (chunks : List Chunk) (top_k : ℕ) (u : Unit) (e : Str)
    (hl : enc.load = Except.ok u)
    (hp : enc.predict (chunks.map (fun c => (q, rerankPairText c))) =
      Except.error e) :
    rerankCore enc q chunks top_k = Except.error e := by
  simp only [rerankCore, hl, hp]
  rfl

/-- C4: `rerank_chunks` with 0 or 1 input chunks skips scoring and
returns the input unchanged with `reranked = false`; and whenever the
scoring core raises (model load failure or a raising `predict`), it
returns the original order truncated to `top_k`, flags
`reranked = false` and records the failure reason in `model_used` —
no case raises to the caller (every branch returns a `RerankResult`). -/
theorem rerank_chunks_degenerate_and_fallback (enc : CrossEncoderOracle)
    (q : Str) (chunks : List Chunk) (top_k : ℕ) (mn : Str) :
    (chunks = [] → rerank_chunks enc q chunks top_k mn =
      { chunks := [], model_used := str "none", reranked := false }) ∧
    (chunks.length = 1 → rerank_chunks enc q chunks top_k mn =
      { chunks := chunks, model_used := str "none", reranked := false }) ∧
    (∀ e, rerankCore enc q chunks top_k = Except.error e →
      2 ≤ chunks.length →
      rerank_chunks enc q chunks top_k mn =
        { chunks := chunks.take top_k
          model_used := str "fallback (error: " ++ e.take 50 ++ str ")"
          reranked := false }) := by
  refine ⟨fun h => by simp [rerank_chunks, h], fun h => ?_, fun e he hlen => ?_⟩
  · obtain ⟨a, rfl⟩ := List.length_eq_one.mp h
    simp [rerank_chunks]
  · have h0 : chunks ≠ [] := by
      intro hc; rw [hc] at hlen; simp at hlen
    have h1 : ¬(chunks.length ≤ 1) := by omega
    simp [rerank_chunks, h0, h1, he]

/-- C4 witness: two chunks, a cross-encoder whose load raises;
the result is the input truncated to `top_k = 1`, not reranked, and the
failure reason appears in `model_used`. -/
theorem rerank_chunks_fallback_witness :
    rerank_chunks exEncoderDown (str "q") [exK1, exK2] 1 (str "m") =
      { chunks := [exK1]
        model_used := str "fallback (error: load failed)"
        reranked := false } := by
  have hc := rerankCore_error_of_load exEncoderDown (str "q") [exK1, exK2] 1
    (str "load failed") rfl
  have h := (rerank_chunks_degenerate_and_fallback exEncoderDown (str "q")
    [exK1, exK2] 1 (str "m")).2.2 (str "load failed") hc (by decide)
  simpa using h

/-- A clean list passes the greedy dedup untouched. -/
theorem dedupGo_of_clean (sim : Str → Str → ℚ) (th : ℚ) :
    ∀ (l kept : List Chunk) (r : ℕ), cleanList sim th kept l →
      dedupGo sim th kept r l = (kept ++ l, r) := by
  intro l
  induction l with
  | nil => intro kept r _; simp [dedupGo]
  | cons c rest ih =>
    intro kept r hc
    obtain ⟨h1, h2⟩ := hc
    have hany : kept.any (fun k => decide (th ≤ sim c.getText k.getText)) = false := by
      simp only [List.any_eq_false, decide_eq_true_eq]
      intro k hk
      exact not_le.mpr (h1 k hk)
    simp only [dedupGo, hany, Bool.false_eq_true, if_false]
    rw [ih (kept ++ [c]) r h2]
    simp

/-- The greedy dedup pass appends a clean extension to the kept prefix
and only that extension. -/
theorem dedupGo_clean (sim : Str → Str → ℚ) (th : ℚ) :
    ∀ (l kept : List Chunk) (r : ℕ),
      ∃ extra r2, dedupGo sim th kept r l = (kept ++ extra, r2) ∧
        cleanList sim th kept extra := by
  intro l
  induction l with
  | nil => intro kept r; exact ⟨[], r, by simp [dedupGo], trivial⟩
  | cons c rest ih =>
    intro kept r
    by_cases hany : kept.any (fun k => decide (th ≤ sim c.getText k.getText)) = true
    · obtain ⟨extra, r2, he, hc⟩ := ih kept (r + 1)
      exact ⟨extra, r2, by simp only [dedupGo, hany, if_true]; exact he, hc⟩
    · obtain ⟨extra, r2, he, hc⟩ := ih (kept ++ [c]) r
      refine ⟨c :: extra, r2, ?_, ?_⟩
      · simp only [dedupGo, hany, if_false]
        rw [he]; simp
      · refine ⟨?_, hc⟩
        intro k hk
        simp only [List.any_eq_true, decide_eq_true_eq, not_exists, not_and] at hany
        exact not_le.mp (fun hle => hany k hk hle)

/-- C9: deduplication is idempotent — for every (deterministic) pairwise
similarity function, threshold and chunk list, re-running
`deduplicate_chunks` on its own output removes zero further chunks and
returns it unchanged. -/
theorem deduplicate_chunks_idempotent (sim : Str → Str → ℚ) (th : ℚ)
    (chunks : List Chunk) :
    deduplicate_chunks sim (deduplicate_chunks sim chunks th).1 th =
      ((deduplicate_chunks sim chunks th).1, 0) := by
  by_cases h : chunks.length ≤ 1
  · have h1 : deduplicate_chunks sim chunks th = (chunks, 0) := by
      simp [deduplicate_chunks, h]
    rw [h1]
    simp [deduplicate_chunks, h]
  · have h1 : deduplicate_chunks sim chunks th = dedupGo sim th [] 0 chunks := by
      simp [deduplicate_chunks, h]
    obtain ⟨extra, r2, he, hc⟩ := dedupGo_clean sim th chunks [] 0
    have hfst : (deduplicate_chunks sim chunks th).1 = extra := by
      rw [h1, he]; simp
    rw [hfst]
    by_cases h2 : extra.length ≤ 1
    · simp [deduplicate_chunks, h2]
    · simp only [deduplicate_chunks, h2, if_false]
      rw [dedupGo_of_clean sim th extra [] 0 (by simpa using hc)]
      simp

/-- The greedy dedup pass cannot grow beyond kept prefix plus input. -/
theorem dedupGo_fst_length (sim : Str → Str → ℚ) (th : ℚ) :
    ∀ (l kept : List Chunk) (r : ℕ),
      (dedupGo sim th kept r l).1.length ≤ kept.length + l.length := by
  intro l
  induction l with
  | nil => intro kept r; simp [dedupGo]
  | cons c rest ih =>
    intro kept r
    simp only [dedupGo]
    split
    · have := ih kept (r + 1)
      simp only [List.length_cons]
      omega
    · have := ih (kept ++ [c]) r
      simp only [List.length_append, List.length_cons, List.length_nil] at this ⊢
      omega

/-- One deduplication pass never increases the chunk count. -/
theorem deduplicate_chunks_length (sim : Str → Str → ℚ) (th : ℚ)
    (chunks : List Chunk) :
    (deduplicate_chunks sim chunks th).1.length ≤ chunks.length := by
  by_cases h : chunks.length ≤ 1
  · simp [deduplicate_chunks, h]
  · simp only [deduplicate_chunks, h, if_false]
    have := dedupGo_fst_length sim th chunks [] 0
    simpa using this

/-- The budget allocation loop never increases the chunk count. -/
theorem budgetGo_length (tb mt : ℤ) (ts : ℚ) :
    ∀ (l : List Chunk) (rem : ℤ),
      (budgetGo tb mt ts rem l).length ≤ l.length := by
  intro l
  induction l with
  | nil => intro rem; simp [budgetGo]
  | cons c rest ih =>
    intro rem
    simp only [budgetGo]
    split
    · simp only [List.length_cons]
      exact le_trans (ih rem) (Nat.le_succ _)
    · simp only [List.length_cons]
      refine Nat.succ_le_succ ?_
      split
      · simp
      · exact ih _

/-- `budget_chunks` never increases the chunk count. -/
theorem budget_chunks_length (chunks : List Chunk) (tb mt : ℤ) :
    (budget_chunks chunks tb mt).length ≤ chunks.length := by
  by_cases h : chunks = []
  · simp [budget_chunks, h]
  · simp only [budget_chunks, h, if_false]
    exact budgetGo_length _ _ _ chunks tb

/-- Compression returns either the input chunk set or (when it is
non-empty) a single synthetic chunk: the count never increases. -/
theorem compress_with_llm_length (llm : LLMOracle) (chunks : List Chunk)
    (q : Str) (t : ℤ) :
    (compress_with_llm llm chunks q t).length ≤ chunks.length := by
  unfold compress_with_llm
  by_cases h1 : (!llm.importOk) = true
  · simp [h1]
  · simp only [h1, if_false]
    by_cases h2 : estTokens (List.intercalate (str "\n\n")
        (chunks.map Chunk.getText)) ≤ t
    · simp [h2]
    · simp only [h2, if_false]
      rcases hcall : llm.call (compressPrompt q t (List.intercalate
          (str "\n\n") (chunks.map Chunk.getText))) 0 t with e | resp
      · simp [hcall]
      · simp only [hcall]
        rcases hm : pyMaxQ (chunks.map (fun c => c.score.getD 0)) with u | m
        · simp [hm]
        · simp only [hm]
          cases chunks with
          | nil => simp [pyMaxQ] at hm
          | cons a l => simp

/-- The budget-then-maybe-compress tail of `shape_context` never
increases the chunk count beyond a bound on its input. -/
theorem shapeTail_length (llm : LLMOracle) (query : Str) (tb : ℤ)
    (ec : Bool) (pre : List Chunk) (n : ℕ) (hpre : pre.length ≤ n) :
    (if ec = true ∧
        (((budget_chunks pre tb).map (fun c => estTokens c.getText)).sum : ℚ) >
          (tb : ℚ) * (12/10) then
      (compress_with_llm llm (budget_chunks pre tb) query tb, true)
    else (budget_chunks pre tb, false)).1.length ≤ n := by
  split
  · exact le_trans (le_trans (compress_with_llm_length _ _ _ _)
      (budget_chunks_length pre tb 50)) hpre
  · exact le_trans (budget_chunks_length pre tb 50) hpre

/-- C8: for every input chunk list, query and configuration of the four
shaping stages, the number of chunks in the `shape_context` output never
exceeds the number of input chunks: dedup and budget only drop chunks,
prune maps chunk-for-chunk, and compression either keeps the set or
replaces it wholesale by one compressed chunk. -/
theorem shape_context_count (sim : Str → Str → ℚ) (llm : LLMOracle)
    (chunks : List Chunk) (query : Str) (tb : ℤ) (dth : ℚ)
    (ep ec : Bool) (rth : ℚ) :
    (shape_context sim llm chunks query tb dth ep ec rth).chunks.length ≤
      chunks.length := by
  by_cases h : chunks = []
  · simp [shape_context, h]
  · by_cases hep : ep = true
    · simp only [shape_context, h, if_false, hep, if_true]
      exact shapeTail_length llm query tb ec _ _
        (by simpa using deduplicate_chunks_length sim dth chunks)
    · simp only [shape_context, h, if_false, hep]
      exact shapeTail_length llm query tb ec _ _
        (deduplicate_chunks_length sim dth chunks)

/-- Estimated token counts are non-negative. -/
theorem estTokens_nonneg (s : Str) : 0 ≤ estTokens s := Int.natCast_nonneg _

/-- Dropping the last word cannot lengthen a text. -/
theorem rsplitSpaceHead_length (l : Str) :
    (rsplitSpaceHead l).length ≤ l.length := by
  unfold rsplitSpaceHead
  rcases h : l.reverse.dropWhile (fun c => decide (c ≠ ' ')) with _ | ⟨a, t⟩
  · simp
  · simp only [List.length_reverse]
    have h1 : (l.reverse.dropWhile (fun c => decide (c ≠ ' '))).length ≤
        l.reverse.length := (List.dropWhile_sublist _).length_le
    rw [h] at h1
    simp only [List.length_cons, List.length_reverse] at h1
    omega

/-- A trimmed text has at most `4 * budget + 3` characters. -/
theorem trimToBudget_length (t : Str) (cb : ℤ) :
    (trimToBudget t cb).length ≤ (cb * 4).toNat + 3 := by
  have h1 := rsplitSpaceHead_length (t.take (cb * 4).toNat)
  have h2 : (t.take (cb * 4).toNat).length ≤ (cb * 4).toNat :=
    by simp
  have h3 : (str "...").length = 3 := by decide
  simp only [trimToBudget, List.length_append, h3]
  omega

/-- A trimmed chunk text fits its (positive) budget. -/
theorem estTokens_trim_le (t : Str) (cb : ℤ) (hcb : 0 < cb) :
    estTokens (trimToBudget t cb) ≤ cb := by
  have h1 := trimToBudget_length t cb
  unfold estTokens
  omega

/-- The budgeted text of a chunk fits its (positive) budget. -/
theorem budgetedText_le (c : Chunk) (cb : ℤ) (hcb : 0 < cb) :
    estTokens (budgetedText c cb) ≤ cb := by
  unfold budgetedText
  split
  · exact estTokens_trim_le _ _ hcb
  · rename_i h
    push_neg at h
    exact h

/-- The per-chunk budget never exceeds the remaining budget. -/
theorem chunkBudgetOf_le_rem (c : Chunk) (ts : ℚ) (tb mt rem : ℤ) :
    chunkBudgetOf c ts tb mt rem ≤ rem := min_le_right _ _

/-- Every chunk the budget loop emits carries an allocation, and that
allocation never exceeds `max min_tokens remaining` for the remaining
budget at the time of allocation (it is in fact at most the remaining
budget itself). -/
theorem budgetGo_alloc_le (tb mt : ℤ) (ts : ℚ) :
    ∀ (l : List Chunk) (rem : ℤ), ∀ c ∈ budgetGo tb mt ts rem l,
      ∃ a, c.budgetAllocated = some a ∧ a ≤ max mt rem := by
  intro l
  induction l with
  | nil => intro rem c hc; simp [budgetGo] at hc
  | cons c0 rest ih =>
    intro rem c hc
    simp only [budgetGo] at hc
    split at hc
    · exact ih rem c hc
    · rcases List.mem_cons.mp hc with rfl | htail
      · exact ⟨_, rfl, le_trans (chunkBudgetOf_le_rem _ _ _ _ _) (le_max_right _ _)⟩
      · have htail' : c ∈ budgetGo tb mt ts
            (rem - estTokens (budgetedText c0 (chunkBudgetOf c0 ts tb mt rem))) rest := by
          rcases Decidable.em (rem - estTokens
              (budgetedText c0 (chunkBudgetOf c0 ts tb mt rem)) ≤ 0) with hs | hs
          · rw [if_pos hs] at htail; simp at htail
          · rwa [if_neg hs] at htail
        obtain ⟨a, ha, hle⟩ := ih _ c htail'
        have hnn := estTokens_nonneg (budgetedText c0 (chunkBudgetOf c0 ts tb mt rem))
        exact ⟨a, ha, le_trans hle (max_le_max (le_refl mt) (by omega))⟩

/-- The total estimated tokens of the chunks the budget loop emits never
exceed the remaining budget it started with. -/
theorem budgetGo_tokens_le (tb mt : ℤ) (ts : ℚ) :
    ∀ (l : List Chunk) (rem : ℤ), 0 ≤ rem →
      ((budgetGo tb mt ts rem l).map (fun c => estTokens c.getText)).sum ≤ rem := by
  intro l
  induction l with
  | nil => intro rem h; simpa [budgetGo] using h
  | cons c0 rest ih =>
    intro rem hrem
    simp only [budgetGo]
    split
    · exact ih rem hrem
    · rename_i hpos
      push_neg at hpos
      have htext : estTokens (budgetedText c0 (chunkBudgetOf c0 ts tb mt rem)) ≤
          chunkBudgetOf c0 ts tb mt rem := budgetedText_le _ _ hpos
      have hcbrem := chunkBudgetOf_le_rem c0 ts tb mt rem
      have hgt : ({ c0 with
          text := some (budgetedText c0 (chunkBudgetOf c0 ts tb mt rem)),
          budgetAllocated := some (chunkBudgetOf c0 ts tb mt rem) } : Chunk).getText =
          budgetedText c0 (chunkBudgetOf c0 ts tb mt rem) := rfl
      split
      · rename_i hstop
        simp only [List.map_cons, List.sum_cons, List.map_nil, List.sum_nil, hgt]
        omega
      · rename_i hmore
        push_neg at hmore
        have hrec := ih (rem - estTokens (budgetedText c0 (chunkBudgetOf c0 ts tb mt rem)))
          (by omega)
        simp only [List.map_cons, List.sum_cons, hgt]
        omega

/-- C5 (amended): every chunk `budget_chunks` emits is allocated at most
`max(min_tokens_per_chunk, remaining_budget)` (in fact at most the
remaining budget at allocation time), and for a non-negative
`token_budget` the total **estimated tokens of the returned texts** never
exceed `token_budget`.  The sum of the recorded `budget_allocated`
values, however, is *not* bounded by `token_budget` plus one floor
overshoot (see the counterexample). -/
theorem budget_chunks_allocation_bounds (chunks : List Chunk) (tb mt : ℤ) :
    (∀ (ts : ℚ) (rem : ℤ) (l : List Chunk), ∀ c ∈ budgetGo tb mt ts rem l,
      ∃ a, c.budgetAllocated = some a ∧ a ≤ max mt rem) ∧
    (0 ≤ tb →
      ((budget_chunks chunks tb mt).map (fun c => estTokens c.getText)).sum ≤ tb) := by
  constructor
  · intro ts rem l
    exact budgetGo_alloc_le tb mt ts l rem
  · intro htb
    by_cases h : chunks = []
    · simpa [budget_chunks, h] using htb
    · simp only [budget_chunks, h, if_false]
      exact budgetGo_tokens_le tb mt _ chunks tb htb

/-- C5 witness: four minimal-text chunks under budget 100 with floor 50 —
the emitted texts estimate to at most 100 tokens in total, as the amended
bound states. -/
theorem budget_chunks_allocation_bounds_witness :
    (0 : ℤ) ≤ 100 ∧
    ((budget_chunks [exTinyChunk, exTinyChunk, exTinyChunk, exTinyChunk] 100 50).map
      (fun c => estTokens c.getText)).sum ≤ 100 :=
  ⟨by norm_num,
   (budget_chunks_allocation_bounds
     [exTinyChunk, exTinyChunk, exTinyChunk, exTinyChunk] 100 50).2 (by norm_num)⟩

unseal Rat.mul Rat.inv Rat.add Rat.sub in
/-- C5 counterexample: the same four chunks are each allocated the
50-token floor (raw proportional share 25), so the recorded allocations
sum to 200, exceeding `token_budget + min_tokens_per_chunk = 150` — more
than one chunk's floor overshoot above the requested budget of 100. -/
theorem budget_chunks_sum_overshoot_cex :
    ((budget_chunks [exTinyChunk, exTinyChunk, exTinyChunk, exTinyChunk] 100 50).map
      (fun c => c.budgetAllocated.getD 0)).sum = 200 ∧
    ¬ ((budget_chunks [exTinyChunk, exTinyChunk, exTinyChunk, exTinyChunk] 100 50).map
      (fun c => c.budgetAllocated.getD 0)).sum ≤ 100 + 50 := by
  constructor <;> decide

/-- The failure cases of `compress_with_llm` leave the chunk set
unchanged: provider import failed, combined text already within target,
or the generation call raised. -/
theorem compress_with_llm_nochange (llm : LLMOracle) (chunks : List Chunk)
    (q : Str) (t : ℤ)
    (h : llm.importOk = false ∨
      estTokens (List.intercalate (str "\n\n") (chunks.map Chunk.getText)) ≤ t ∨
      ∃ e, llm.call (compressPrompt q t
        (List.intercalate (str "\n\n") (chunks.map Chunk.getText))) 0 t =
          Except.error e) :
    compress_with_llm llm chunks q t = chunks := by
  unfold compress_with_llm
  rcases h with h | h | ⟨e, h⟩
  · simp [h]
  · by_cases h1 : (!llm.importOk) = true
    · simp [h1]
    · simp [h1, h]
  · by_cases h1 : (!llm.importOk) = true
    · simp [h1]
    · simp only [h1, if_false]
      by_cases h2 : estTokens (List.intercalate (str "\n\n")
          (chunks.map Chunk.getText)) ≤ t
      · simp [h2]
      · simp [h2, h]

/-- C10: whenever compression is enabled and the post-budget estimated
token count exceeds `token_budget * 1.2`, `shape_context` reports
`compression_applied = true` even when `compress_with_llm` left the chunk
set unchanged (provider unavailable, combined text within target, or the
call raised): in every such failure case the returned chunks are exactly
the pre-compression budgeted set, so the flag does not imply the chunks
were replaced. -/
theorem shape_context_compression_flag (sim : Str → Str → ℚ)
    (llm : LLMOracle) (chunks : List Chunk) (query : Str) (tb : ℤ)
    (dth : ℚ) (ep : Bool) (rth : ℚ)
    (hc : chunks ≠ [])
    (hover : (((budget_chunks (if ep = true then
        (deduplicate_chunks sim chunks dth).1.map
          (fun c => prune_irrelevant_sentences sim c query rth)
      else (deduplicate_chunks sim chunks dth).1) tb).map
        (fun c => estTokens c.getText)).sum : ℚ) > (tb : ℚ) * (12/10))
    (hfail : llm.importOk = false ∨
      estTokens (List.intercalate (str "\n\n")
        ((budget_chunks (if ep = true then
            (deduplicate_chunks sim chunks dth).1.map
              (fun c => prune_irrelevant_sentences sim c query rth)
          else (deduplicate_chunks sim chunks dth).1) tb).map
            Chunk.getText)) ≤ tb ∨
      ∃ e, llm.call (compressPrompt query tb
        (List.intercalate (str "\n\n")
          ((budget_chunks (if ep = true then
              (deduplicate_chunks sim chunks dth).1.map
                (fun c => prune_irrelevant_sentences sim c query rth)
            else (deduplicate_chunks sim chunks dth).1) tb).map
              Chunk.getText))) 0 tb = Except.error e) :
    (shape_context sim llm chunks query tb dth ep true rth).chunks =
      budget_chunks (if ep = true then
        (deduplicate_chunks sim chunks dth).1.map
          (fun c => prune_irrelevant_sentences sim c query rth)
      else (deduplicate_chunks sim chunks dth).1) tb ∧
    (shape_context sim llm chunks query tb dth ep true rth).compression_applied =
      true := by
  have hcond : True ∧
      (((budget_chunks (if ep = true then
          (deduplicate_chunks sim chunks dth).1.map
            (fun c => prune_irrelevant_sentences sim c query rth)
        else (deduplicate_chunks sim chunks dth).1) tb).map
          (fun c => estTokens c.getText)).sum : ℚ) > (tb : ℚ) * (12/10) :=
    ⟨trivial, hover⟩
  simp only [shape_context, hc, if_false]
  rw [if_pos hcond]
  exact ⟨compress_with_llm_nochange llm _ query tb hfail, rfl⟩

unseal Rat.mul Rat.inv Rat.add Rat.sub in
/-- C10 witness: a negative token budget empties the budget stage (0
estimated tokens still exceed `1.2 * (-1)`), compression triggers, the
generation call raises, and the result keeps the budgeted set while
still reporting `compression_applied = true`. -/
theorem shape_context_compression_flag_witness :
    (shape_context (fun _ _ => 0) exLLMDown [exTinyChunk] (str "q") (-1)
        (85/100) true true (3/10)).chunks =
      budget_chunks (if true = true then
        (deduplicate_chunks (fun _ _ => 0) [exTinyChunk] (85/100)).1.map
          (fun c => prune_irrelevant_sentences (fun _ _ => 0) c (str "q") (3/10))
      else (deduplicate_chunks (fun _ _ => 0) [exTinyChunk] (85/100)).1) (-1) ∧
    (shape_context (fun _ _ => 0) exLLMDown [exTinyChunk] (str "q") (-1)
        (85/100) true true (3/10)).compression_applied = true :=
  shape_context_compression_flag (fun _ _ => 0) exLLMDown [exTinyChunk]
    (str "q") (-1) (85/100) true (3/10) (by decide) (by decide)
    (Or.inr (Or.inr ⟨str "boom", rfl⟩))

/-- Synonym expansion always returns a non-empty list headed by the
query. -/
theorem expandWithSynonyms_spec (wc : Char → Bool) (q : Str) :
    q ∈ expandWithSynonyms wc q ∧ expandWithSynonyms wc q ≠ [] := by
  simp only [expandWithSynonyms]
  split <;> simp

/-- Taking a positive prefix of a non-empty list is non-empty. -/
theorem take_succ_ne_nil {α : Type} (l : List α) (n : ℕ) (h : l ≠ []) :
    l.take (n + 1) ≠ [] := by
  cases l
  · exact absurd rfl h
  · simp

/-- The LLM rewrite either keeps the original query in its output or the
parsed response contained the original and the result is its truncation
to `num_variants + 1` entries. -/
theorem rewriteWithLLM_spec (llm : LLMOracle) (q : Str) (nv : ℕ) (s : Str) :
    rewriteWithLLM llm q nv s ≠ [] ∧
    (q ∈ rewriteWithLLM llm q nv s ∨
      ∃ resp, llm.call (if s = str "decompose" then decomposePrompt q
          else multiQueryPrompt nv q) (3/10) 256 = Except.ok resp ∧
        q ∈ parsedLines resp.text ∧
        rewriteWithLLM llm q nv s = (parsedLines resp.text).take (nv + 1)) := by
  unfold rewriteWithLLM
  split
  · simp
  · rcases hcall : llm.call (if s = str "decompose" then decomposePrompt q
        else multiQueryPrompt nv q) (3/10) 256 with e | resp
    · simp [hcall]
    · simp only [hcall]
      simp only [parseRewriteResponse]
      by_cases hmem : q ∈ parsedLines resp.text
      · rw [if_pos hmem]
        have hne : parsedLines resp.text ≠ [] := by
          intro hx; rw [hx] at hmem; simp at hmem
        exact ⟨take_succ_ne_nil _ _ hne, Or.inr ⟨resp, rfl, hmem, rfl⟩⟩
      · rw [if_neg hmem]
        simp only [List.take_succ_cons]
        exact ⟨by simp, Or.inl (List.mem_cons_self _ _)⟩

/-- A raising generator call makes `_rewrite_with_llm` fall back to
exactly the one-element list holding the original query. -/
theorem rewriteWithLLM_error (llm : LLMOracle) (q : Str) (nv : ℕ) (s : Str)
    (e : Str) (he : llm.call (if s = str "decompose" then decomposePrompt q
      else multiQueryPrompt nv q) (3/10) 256 = Except.error e) :
    rewriteWithLLM llm q nv s = [q] := by
  unfold rewriteWithLLM
  split
  · rfl
  · simp [he]

/-- The post-strip core of `rewrite_query` records its query, returns a
non-empty list, and keeps the query except in the parse-truncation
case. -/
theorem rewriteCore_contains_original (wc : Char → Bool) (llm : LLMOracle)
    (q : Str) (nv : ℕ) (strat : Option Str) (ul : Bool) :
    (rewriteCore wc llm q nv strat ul).original_query = q ∧
    (rewriteCore wc llm q nv strat ul).rewritten_queries ≠ [] ∧
    (q ∈ (rewriteCore wc llm q nv strat ul).rewritten_queries ∨
      ∃ s resp, (s = str "multi" ∨ s = str "decompose") ∧
        llm.call (if s = str "decompose" then decomposePrompt q
          else multiQueryPrompt nv q) (3/10) 256 = Except.ok resp ∧
        q ∈ parsedLines resp.text ∧
        (rewriteCore wc llm q nv strat ul).rewritten_queries =
          (parsedLines resp.text).take (nv + 1)) := by
  unfold rewriteCore
  by_cases hqe : q = []
  · simp [hqe]
  · simp only [hqe, if_false]
    generalize (if strat = some (str "auto") then
      some (if isComplexQuery q ∧ ul ∧ llm.importOk then str "decompose"
        else if ul ∧ llm.importOk then str "multi"
        else str "expand") else strat) = S
    by_cases h1 : S = some (str "expand")
    · rw [if_pos h1]
      exact ⟨rfl, (expandWithSynonyms_spec wc q).2,
        Or.inl (expandWithSynonyms_spec wc q).1⟩
    · rw [if_neg h1]
      by_cases h2 : S = some (str "multi") ∧ ul ∧ llm.importOk
      · rw [if_pos h2]
        obtain ⟨hne, hcase⟩ := rewriteWithLLM_spec llm q nv (str "multi")
        refine ⟨rfl, hne, ?_⟩
        rcases hcase with hmem | ⟨resp, hcall, hpm, heq⟩
        · exact Or.inl hmem
        · exact Or.inr ⟨str "multi", resp, Or.inl rfl, hcall, hpm, heq⟩
      · rw [if_neg h2]
        by_cases h3 : S = some (str "decompose") ∧ ul ∧ llm.importOk
        · rw [if_pos h3]
          obtain ⟨hne, hcase⟩ := rewriteWithLLM_spec llm q nv (str "decompose")
          refine ⟨rfl, hne, ?_⟩
          rcases hcase with hmem | ⟨resp, hcall, hpm, heq⟩
          · exact Or.inl hmem
          · exact Or.inr ⟨str "decompose", resp, Or.inr rfl, hcall, hpm, heq⟩
        · rw [if_neg h3]
          exact ⟨rfl, (expandWithSynonyms_spec wc q).2,
            Or.inl (expandWithSynonyms_spec wc q).1⟩

/-- The post-strip core of `rewrite_query` records the attempted or
fallback strategy name and takes the matching rewrite path: `"none"` on
the empty query, synonym expansion under `"expand"` whenever the
generator path is not executable (or expansion was requested), and the
generator with the requested or auto-resolved strategy otherwise. -/
theorem rewriteCore_contract (wc : Char → Bool) (llm : LLMOracle) (q : Str)
    (nv : ℕ) (strat : Option Str) (ul : Bool) :
    (q = [] → rewriteCore wc llm q nv strat ul =
      { original_query := q, rewritten_queries := [q]
        strategy_used := str "none" }) ∧
    (q ≠ [] → ¬(ul = true ∧ llm.importOk = true) →
      (rewriteCore wc llm q nv strat ul).strategy_used = str "expand" ∧
      (rewriteCore wc llm q nv strat ul).rewritten_queries =
        expandWithSynonyms wc q) ∧
    (q ≠ [] → strat = some (str "expand") →
      (rewriteCore wc llm q nv strat ul).strategy_used = str "expand" ∧
      (rewriteCore wc llm q nv strat ul).rewritten_queries =
        expandWithSynonyms wc q) ∧
    (q ≠ [] → ul = true → llm.importOk = true →
      ((strat = some (str "multi") ∨
          strat = some (str "auto") ∧ isComplexQuery q = false) →
        (rewriteCore wc llm q nv strat ul).strategy_used = str "multi" ∧
        (rewriteCore wc llm q nv strat ul).rewritten_queries =
          rewriteWithLLM llm q nv (str "multi")) ∧
      ((strat = some (str "decompose") ∨
          strat = some (str "auto") ∧ isComplexQuery q = true) →
        (rewriteCore wc llm q nv strat ul).strategy_used = str "decompose" ∧
        (rewriteCore wc llm q nv strat ul).rewritten_queries =
          rewriteWithLLM llm q nv (str "decompose"))) := by
  refine ⟨?_, ?_, ?_, ?_⟩
  · intro hqe
    subst hqe
    rfl
  · intro hqe hna
    unfold rewriteCore
    simp only [hqe, if_false]
    by_cases hauto : strat = some (str "auto")
    · subst hauto
      rw [if_pos rfl]
      rw [if_neg (show ¬(isComplexQuery q = true ∧ ul = true ∧
        llm.importOk = true) from fun h => hna ⟨h.2.1, h.2.2⟩)]
      rw [if_neg (show ¬(ul = true ∧ llm.importOk = true) from hna)]
      rw [if_pos rfl]
      exact ⟨rfl, rfl⟩
    · rw [if_neg hauto]
      by_cases hexp : strat = some (str "expand")
      · rw [if_pos hexp]
        exact ⟨rfl, rfl⟩
      · rw [if_neg hexp]
        rw [if_neg (show ¬(strat = some (str "multi") ∧ ul = true ∧
          llm.importOk = true) from fun h => hna h.2)]
        rw [if_neg (show ¬(strat = some (str "decompose") ∧ ul = true ∧
          llm.importOk = true) from fun h => hna h.2)]
        exact ⟨rfl, rfl⟩
  · intro hqe hstrat
    subst hstrat
    unfold rewriteCore
    simp only [hqe, if_false]
    rw [if_neg (by decide : ¬(some (str "expand") = some (str "auto")))]
    rw [if_pos rfl]
    exact ⟨rfl, rfl⟩
  · intro hqe hul hok
    constructor
    · intro hcase
      unfold rewriteCore
      simp only [hqe, if_false]
      rcases hcase with hm | ⟨hauto, hcomp⟩
      · subst hm
        rw [if_neg (by decide : ¬(some (str "multi") = some (str "auto")))]
        rw [if_neg (by decide : ¬(some (str "multi") = some (str "expand")))]
        rw [if_pos (show some (str "multi") = some (str "multi") ∧
          ul = true ∧ llm.importOk = true from ⟨rfl, hul, hok⟩)]
        exact ⟨rfl, rfl⟩
      · subst hauto
        rw [if_pos rfl]
        rw [if_neg (show ¬(isComplexQuery q = true ∧ ul = true ∧
          llm.importOk = true) from fun h => by
            rw [hcomp] at h; exact absurd h.1 (by decide))]
        rw [if_pos (show ul = true ∧ llm.importOk = true from ⟨hul, hok⟩)]
        rw [if_neg (by decide : ¬(some (str "multi") = some (str "expand")))]
        rw [if_pos (show some (str "multi") = some (str "multi") ∧
          ul = true ∧ llm.importOk = true from ⟨rfl, hul, hok⟩)]
        exact ⟨rfl, rfl⟩
    · intro hcase
      unfold rewriteCore
      simp only [hqe, if_false]
      rcases hcase with hd | ⟨hauto, hcomp⟩
      · subst hd
        rw [if_neg (by decide : ¬(some (str "decompose") = some (str "auto")))]
        rw [if_neg (by decide : ¬(some (str "decompose") = some (str "expand")))]
        rw [if_neg (show ¬(some (str "decompose") = some (str "multi") ∧
          ul = true ∧ llm.importOk = true) from fun h => absurd h.1 (by decide))]
        rw [if_pos (show some (str "decompose") = some (str "decompose") ∧
          ul = true ∧ llm.importOk = true from ⟨rfl, hul, hok⟩)]
        exact ⟨rfl, rfl⟩
      · subst hauto
        rw [if_pos rfl]
        rw [if_pos (show isComplexQuery q = true ∧ ul = true ∧
          llm.importOk = true from ⟨hcomp, hul, hok⟩)]
        rw [if_neg (by decide : ¬(some (str "decompose") = some (str "expand")))]
        rw [if_neg (show ¬(some (str "decompose") = some (str "multi") ∧
          ul = true ∧ llm.importOk = true) from fun h => absurd h.1 (by decide))]
        rw [if_pos (show some (str "decompose") = some (str "decompose") ∧
          ul = true ∧ llm.importOk = true from ⟨rfl, hul, hok⟩)]
        exact ⟨rfl, rfl⟩

/-- C6 (amended): `rewrite_query` never raises (it is a total function of
the generator oracle and the `\w` classifier), records the stripped
original query, and always returns a non-empty list; `strategy_used`
records the attempted or fallback strategy name: `"none"` on the empty
query (result `[""]`), the requested `"expand"`, the requested or
auto-resolved `"multi"`/`"decompose"` when the generator is importable
and `use_llm` is set, and the fallback `"expand"` otherwise — that
unavailable-generator fallback is synonym expansion, not `[original]`
alone.  A raising generator call falls back to exactly `[original]`.
The result contains the original query on every path EXCEPT when the
parsed generator output itself lists the original and the truncation to
`num_variants + 1` entries cuts it off; the result is then exactly that
truncation. -/
theorem rewrite_query_contract (wc : Char → Bool) (llm : LLMOracle)
    (q0 : Str) (nv : ℕ) (strat : Option Str) (ul : Bool) :
    (rewrite_query wc llm q0 nv strat ul).original_query = pyStrip q0 ∧
    (rewrite_query wc llm q0 nv strat ul).rewritten_queries ≠ [] ∧
    (pyStrip q0 = [] → rewrite_query wc llm q0 nv strat ul =
      { original_query := pyStrip q0, rewritten_queries := [pyStrip q0]
        strategy_used := str "none" }) ∧
    (pyStrip q0 ≠ [] → ¬(ul = true ∧ llm.importOk = true) →
      (rewrite_query wc llm q0 nv strat ul).strategy_used = str "expand" ∧
      (rewrite_query wc llm q0 nv strat ul).rewritten_queries =
        expandWithSynonyms wc (pyStrip q0)) ∧
    (pyStrip q0 ≠ [] → strat = some (str "expand") →
      (rewrite_query wc llm q0 nv strat ul).strategy_used = str "expand" ∧
      (rewrite_query wc llm q0 nv strat ul).rewritten_queries =
        expandWithSynonyms wc (pyStrip q0)) ∧
    (pyStrip q0 ≠ [] → ul = true → llm.importOk = true →
      ((strat = some (str "multi") ∨
          strat = some (str "auto") ∧ isComplexQuery (pyStrip q0) = false) →
        (rewrite_query wc llm q0 nv strat ul).strategy_used = str "multi" ∧
        (rewrite_query wc llm q0 nv strat ul).rewritten_queries =
          rewriteWithLLM llm (pyStrip q0) nv (str "multi")) ∧
      ((strat = some (str "decompose") ∨
          strat = some (str "auto") ∧ isComplexQuery (pyStrip q0) = true) →
        (rewrite_query wc llm q0 nv strat ul).strategy_used =
          str "decompose" ∧
        (rewrite_query wc llm q0 nv strat ul).rewritten_queries =
          rewriteWithLLM llm (pyStrip q0) nv (str "decompose"))) ∧
    (∀ s e, llm.call (if s = str "decompose" then decomposePrompt (pyStrip q0)
        else multiQueryPrompt nv (pyStrip q0)) (3/10) 256 = Except.error e →
      rewriteWithLLM llm (pyStrip q0) nv s = [pyStrip q0]) ∧
    (pyStrip q0 ∈ (rewrite_query wc llm q0 nv strat ul).rewritten_queries ∨
      ∃ s resp, (s = str "multi" ∨ s = str "decompose") ∧
        llm.call (if s = str "decompose" then decomposePrompt (pyStrip q0)
          else multiQueryPrompt nv (pyStrip q0)) (3/10) 256 =
            Except.ok resp ∧
        pyStrip q0 ∈ parsedLines resp.text ∧
        (rewrite_query wc llm q0 nv strat ul).rewritten_queries =
          (parsedLines resp.text).take (nv + 1)) :=
  ⟨(rewriteCore_contains_original wc llm (pyStrip q0) nv strat ul).1,
   (rewriteCore_contains_original wc llm (pyStrip q0) nv strat ul).2.1,
   (rewriteCore_contract wc llm (pyStrip q0) nv strat ul).1,
   (rewriteCore_contract wc llm (pyStrip q0) nv strat ul).2.1,
   (rewriteCore_contract wc llm (pyStrip q0) nv strat ul).2.2.1,
   (rewriteCore_contract wc llm (pyStrip q0) nv strat ul).2.2.2,
   fun s e he => rewriteWithLLM_error llm (pyStrip q0) nv s e he,
   (rewriteCore_contains_original wc llm (pyStrip q0) nv strat ul).2.2⟩

/-- C6 witness: with the generator unavailable and strategy `"multi"`
requested on a padded query, the contract yields the `"expand"` fallback
with synonym expansion. -/
theorem rewrite_query_contract_witness :
    (rewrite_query isWordChar exLLMUnavail (str " fix error ") 3
      (some (str "multi")) true).strategy_used = str "expand" ∧
    (rewrite_query isWordChar exLLMUnavail (str " fix error ") 3
      (some (str "multi")) true).rewritten_queries =
      expandWithSynonyms isWordChar (pyStrip (str " fix error ")) :=
  (rewrite_query_contract isWordChar exLLMUnavail (str " fix error ") 3
    (some (str "multi")) true).2.2.2.1 (by decide) (by decide)

/-- C6 counterexample: (i) with `num_variants = 3` and a generator whose
output lists the original query fifth (after four other long-enough
lines), `rewrite_query` truncates to four entries and the returned list
does **not** contain the original query; (ii) with the generator
unavailable, the fallback list is the two-query synonym expansion —
not `[original_query]` alone — recorded as strategy `"expand"`. -/
theorem rewrite_query_drops_original_cex :
    (rewrite_query isWordChar exLLMFive (str "my query") 3
        (some (str "multi")) true).rewritten_queries =
      [str "alpha one", str "beta two", str "gamma three",
       str "delta four"] ∧
    str "my query" ∉
      (rewrite_query isWordChar exLLMFive (str "my query") 3
        (some (str "multi")) true).rewritten_queries ∧
    (rewrite_query isWordChar exLLMUnavail (str "fix error") 3
        (some (str "multi")) true).rewritten_queries =
      [str "fix error",
       str "fix error resolve troubleshoot repair solve issue problem failure bug"] ∧
    (rewrite_query isWordChar exLLMUnavail (str "fix error") 3
        (some (str "multi")) true).strategy_used = str "expand" :=
  ⟨by decide, by decide, by decide, by decide⟩

/-- C1 (amended): the orchestration error contract that actually holds —
(1) `orchestrate_advanced` never raises **when tracing is enabled**:
every pipeline failure becomes a populated `error` field on a result
object; (2) `orchestrate_query` on the empty query returns the
`invalid_query` error result for every oracle assignment and option
combination (so no pipeline stage is consulted); (3) `orchestrate_query`
never raises for any input: every branch, including all stage and
generation failures, returns a result object.  (With tracing disabled,
`orchestrate_advanced` re-raises a stage failure — see the
counterexample.) -/
theorem orchestrate_error_contract :
    (∀ (O : Oracles) (q : Str) (k : ℕ) (lp : Option (ℚ × ℤ)) (tb : ℤ)
        (er : Bool) (cp : Option Str),
      ∃ r, orchestrate_advanced O q k lp tb er true cp = Except.ok r) ∧
    (∀ (O : Oracles) (tk : ℤ) (lp : Option (ℚ × ℤ)) (strat : Option Str)
        (uh ur : Bool) (ws wk : ℚ) (cp : Option Str),
      orchestrate_query O [] tk lp strat uh ur ws wk cp =
        Except.ok (errorResult (str "invalid_query"))) ∧
    (∀ (O : Oracles) (q : Str) (tk : ℤ) (lp : Option (ℚ × ℤ))
        (strat : Option Str) (uh ur : Bool) (ws wk : ℚ) (cp : Option Str),
      ∃ r, orchestrate_query O q tk lp strat uh ur ws wk cp = Except.ok r) := by
  have hgen : ∀ (O : Oracles) (query : Str) (rw : Option QueryRewriteResult)
      (qs : List Str) (meta : RetrievalMeta) (chunks : List Chunk)
      (top_k : ℕ) (lp : ℚ × ℤ),
      ∃ r, orchestrateGenerate O query rw qs meta chunks top_k lp =
        Except.ok r := by
    intro O query rw qs meta chunks top_k lp
    simp only [orchestrateGenerate]
    rcases h : orchCallLLM O (build_rag_prompt query chunks top_k) lp.1 lp.2 with e | resp
    · exact ⟨_, rfl⟩
    · exact ⟨_, rfl⟩
  have hafter : ∀ (O : Oracles) (query : Str) (rw : Option QueryRewriteResult)
      (qs : List Str) (st : List (List Chunk) × RetrievalMeta) (top_k : ℕ)
      (ur : Bool) (lp : ℚ × ℤ),
      ∃ r, orchestrateAfterRetrieval O query rw qs st top_k ur lp =
        Except.ok r := by
    intro O query rw qs st top_k ur lp
    simp only [orchestrateAfterRetrieval]
    repeat' split
    all_goals first
      | exact ⟨_, rfl⟩
      | exact hgen _ _ _ _ _ _ _ _
  refine ⟨?_, ?_, ?_⟩
  · intro O q k lp tb er cp
    rcases h : advancedCore O q k (lp.getD (0, 800)) tb er true
        (cp.getD O.currentChunksPath) with e | r
    · exact ⟨{ answer := [], error := some e, traceAttached := true },
        by simp [orchestrate_advanced, h]⟩
    · exact ⟨r, by simp [orchestrate_advanced, h]⟩
  · intro O tk lp strat uh ur ws wk cp
    rfl
  · intro O q tk lp strat uh ur ws wk cp
    by_cases hq : q = []
    · refine ⟨errorResult (str "invalid_query"), ?_⟩
      rw [hq]
      rfl
    · simp only [orchestrate_query, if_neg hq]
      exact hafter _ _ _ _ _ _ _ _

/-- C1 counterexample: with tracing disabled, a raising generation call
propagates out of `orchestrate_advanced` to the caller (the outer
`except` handler re-raises when no tracer exists), refuting the claim
that both public entry points never raise for every input. -/
theorem orchestrate_advanced_raises_cex :
    orchestrate_advanced exOraclesAdv (str "hello") 5 none 3000 true false none =
      Except.error (str "boom") := by decide

/-- Looking up after a score update: the updated key gains `v`. -/
theorem alistFind_addScore (m : List (Str × ℚ)) (k : Str) (v : ℚ) (k' : Str) :
    alistFind (addScore m k v) k' =
      if k' = k then some ((alistFind m k).getD 0 + v) else alistFind m k' := by
  induction m with
  | nil =>
    simp only [addScore, alistFind]
    by_cases h : k' = k
    · subst h
      simp
    · simp [h, Ne.symm h]
  | cons p rest ih =>
    obtain ⟨a, b⟩ := p
    by_cases hak : a = k
    · subst hak
      simp only [addScore, if_pos rfl, alistFind]
      by_cases hk' : a = k'
      · subst hk'
        simp
      · simp [hk', Ne.symm hk']
    · simp only [addScore, if_neg hak, alistFind]
      rw [ih]
      by_cases hk' : a = k'
      · subst hk'
        simp [hak, Ne.symm hak]
      · simp [hk']

/-- Updating the score dict adds `v` to exactly the updated key. -/
theorem scoreOf_addScore (m : List (Str × ℚ)) (k : Str) (v : ℚ) (k' : Str) :
    scoreOf (addScore m k v) k' = scoreOf m k' + (if k' = k then v else 0) := by
  unfold scoreOf
  rw [alistFind_addScore]
  by_cases h : k' = k
  · subst h
    simp
  · simp [h]

/-- Keys after `addScore`: preserved, with the new key appended at most. -/
theorem alistKeys_addScore (m : List (Str × ℚ)) (k : Str) (v : ℚ) :
    alistKeys (addScore m k v) =
      if k ∈ alistKeys m then alistKeys m else alistKeys m ++ [k] := by
  induction m with
  | nil =>
    show [k] = if k ∈ ([] : List Str) then ([] : List Str) else [] ++ [k]
    simp
  | cons p rest ih =>
    obtain ⟨a, b⟩ := p
    by_cases hak : a = k
    · subst hak
      show alistKeys (if a = a then _ else _) = _
      rw [if_pos rfl]
      show a :: alistKeys rest =
        if a ∈ a :: alistKeys rest then a :: alistKeys rest
        else (a :: alistKeys rest) ++ [a]
      simp
    · show alistKeys (if a = k then _ else _) = _
      rw [if_neg hak]
      show a :: alistKeys (addScore rest k v) =
        if k ∈ a :: alistKeys rest then a :: alistKeys rest
        else (a :: alistKeys rest) ++ [k]
      rw [ih]
      by_cases hmem : k ∈ alistKeys rest
      · rw [if_pos hmem, if_pos (List.mem_cons.mpr (Or.inr hmem))]
      · rw [if_neg hmem, if_neg (fun h => by
          rcases List.mem_cons.mp h with h | h
          · exact hak h.symm
          · exact hmem h)]
        simp

/-- Keys after `addDataSem`: preserved, with the new key appended at most. -/
theorem alistKeys_addDataSem (m : List (Str × Chunk)) (k : Str) (c : Chunk) :
    alistKeys (addDataSem m k c) =
      if k ∈ alistKeys m then alistKeys m else alistKeys m ++ [k] := by
  induction m with
  | nil =>
    show [k] = if k ∈ ([] : List Str) then ([] : List Str) else [] ++ [k]
    simp
  | cons p rest ih =>
    obtain ⟨a, b⟩ := p
    by_cases hak : a = k
    · subst hak
      show alistKeys (if a = a then _ else _) = _
      rw [if_pos rfl]
      show a :: alistKeys rest =
        if a ∈ a :: alistKeys rest then a :: alistKeys rest
        else (a :: alistKeys rest) ++ [a]
      simp
    · show alistKeys (if a = k then _ else _) = _
      rw [if_neg hak]
      show a :: alistKeys (addDataSem rest k c) =
        if k ∈ a :: alistKeys rest then a :: alistKeys rest
        else (a :: alistKeys rest) ++ [k]
      rw [ih]
      by_cases hmem : k ∈ alistKeys rest
      · rw [if_pos hmem, if_pos (List.mem_cons.mpr (Or.inr hmem))]
      · rw [if_neg hmem, if_neg (fun h => by
          rcases List.mem_cons.mp h with h | h
          · exact hak h.symm
          · exact hmem h)]
        simp

/-- Keys after `addDataKw`: preserved, with the new key appended at most. -/
theorem alistKeys_addDataKw (m : List (Str × Chunk)) (k : Str) (c : Chunk) :
    alistKeys (addDataKw m k c) =
      if k ∈ alistKeys m then alistKeys m else alistKeys m ++ [k] := by
  induction m with
  | nil =>
    show [k] = if k ∈ ([] : List Str) then ([] : List Str) else [] ++ [k]
    simp
  | cons p rest ih =>
    obtain ⟨a, b⟩ := p
    by_cases hak : a = k
    · subst hak
      show alistKeys (if a = a then _ else _) = _
      rw [if_pos rfl]
      show a :: alistKeys rest =
        if a ∈ a :: alistKeys rest then a :: alistKeys rest
        else (a :: alistKeys rest) ++ [a]
      simp
    · show alistKeys (if a = k then _ else _) = _
      rw [if_neg hak]
      show a :: alistKeys (addDataKw rest k c) =
        if k ∈ a :: alistKeys rest then a :: alistKeys rest
        else (a :: alistKeys rest) ++ [k]
      rw [ih]
      by_cases hmem : k ∈ alistKeys rest
      · rw [if_pos hmem, if_pos (List.mem_cons.mpr (Or.inr hmem))]
      · rw [if_neg hmem, if_neg (fun h => by
          rcases List.mem_cons.mp h with h | h
          · exact hak h.symm
          · exact hmem h)]
        simp

/-- A key present in an association list has a value. -/
theorem alistFind_isSome {α : Type} (d : List (Str × α)) (k : Str)
    (h : k ∈ alistKeys d) : ∃ v, alistFind d k = some v := by
  induction d with
  | nil => simp [alistKeys] at h
  | cons p rest ih =>
    obtain ⟨a, b⟩ := p
    by_cases hak : a = k
    · exact ⟨b, by simp [alistFind, hak]⟩
    · simp only [alistKeys, List.map_cons, List.mem_cons] at h
      rcases h with h | h
      · exact absurd h.symm hak
      · simpa [alistFind, hak] using ih h

/-- A found value is an entry of the association list. -/
theorem alistFind_mem {α : Type} (d : List (Str × α)) (k : Str) (v : α)
    (h : alistFind d k = some v) : (k, v) ∈ d := by
  induction d with
  | nil => simp [alistFind] at h
  | cons p rest ih =>
    obtain ⟨a, b⟩ := p
    simp only [alistFind] at h
    split at h
    · rename_i hak
      obtain rfl := hak
      obtain rfl : b = v := Option.some.inj h
      exact List.mem_cons_self _ _
    · exact List.mem_cons_of_mem _ (ih h)

/-- Index of an id at the head of a list. -/
theorem strIndexOf_cons_self (a : Str) (l : List Str) :
    List.indexOf a (a :: l) = 0 := by
  simp [List.indexOf, List.findIdx_cons]

/-- Index of an id behind a different head. -/
theorem strIndexOf_cons_ne {a b : Str} (l : List Str) (h : b ≠ a) :
    List.indexOf a (b :: l) = List.indexOf a l + 1 := by
  simp [List.indexOf, List.findIdx_cons, Bool.cond_eq_ite, beq_iff_eq, h]

/-- One RRF enumeration pass adds to an id exactly its (unique) rank
contribution `w * (1 / (60 + rank + index + 1))` — chunks with empty ids
are skipped but still advance the rank. -/
theorem procScores_scoreOf (w : ℚ) :
    ∀ (l : List Chunk) (rank : ℕ) (m : List (Str × ℚ)) (id : Str),
      id ≠ [] → (l.map Chunk.id).Nodup →
      scoreOf (procScores w rank l m) id =
        scoreOf m id +
          (if id ∈ l.map Chunk.id then
            w * (1 / (60 + (rank : ℚ) + ((l.map Chunk.id).indexOf id : ℚ) + 1))
          else 0) := by
  intro l
  induction l with
  | nil => intro rank m id hid hnd; simp [procScores]
  | cons c rest ih =>
    intro rank m id hid hnd
    simp only [List.map_cons] at hnd
    obtain ⟨hnotin, hnd'⟩ := List.nodup_cons.mp hnd
    simp only [procScores]
    by_cases hcid : c.id = []
    · rw [if_pos hcid, ih (rank + 1) m id hid hnd']
      have hne : id ≠ c.id := by rw [hcid]; exact hid
      simp only [List.map_cons]
      by_cases hmem : id ∈ rest.map Chunk.id
      · rw [if_pos hmem, if_pos (List.mem_cons_of_mem _ hmem),
          strIndexOf_cons_ne _ (Ne.symm hne)]
        push_cast
        ring_nf
      · rw [if_neg hmem, if_neg (fun h => by
          rcases List.mem_cons.mp h with h | h
          · exact hne h
          · exact hmem h)]
    · rw [if_neg hcid]
      by_cases hideq : id = c.id
      · subst hideq
        rw [ih (rank + 1) _ c.id hid hnd', if_neg hnotin,
          scoreOf_addScore, if_pos rfl]
        simp only [List.map_cons]
        rw [if_pos (List.mem_cons_self _ _), strIndexOf_cons_self]
        push_cast
        ring_nf
      · rw [ih (rank + 1) _ id hid hnd', scoreOf_addScore, if_neg hideq]
        simp only [List.map_cons, add_zero]
        by_cases hmem : id ∈ rest.map Chunk.id
        · rw [if_pos hmem, if_pos (List.mem_cons_of_mem _ hmem),
            strIndexOf_cons_ne _ (Ne.symm hideq)]
          push_cast
          ring_nf
        · rw [if_neg hmem, if_neg (fun h => by
            rcases List.mem_cons.mp h with h | h
            · exact hideq h
            · exact hmem h)]

/-- The score pass and the semantic data pass build the same key list. -/
theorem keys_procScores_eq_sem (w : ℚ) :
    ∀ (l : List Chunk) (rank : ℕ) (m : List (Str × ℚ))
      (d : List (Str × Chunk)), alistKeys m = alistKeys d →
      alistKeys (procScores w rank l m) = alistKeys (procDataSem rank l d) := by
  intro l
  induction l with
  | nil => intro rank m d h; simpa [procScores, procDataSem] using h
  | cons c rest ih =>
    intro rank m d h
    simp only [procScores, procDataSem]
    by_cases hcid : c.id = []
    · rw [if_pos hcid, if_pos hcid]; exact ih _ _ _ h
    · rw [if_neg hcid, if_neg hcid]
      refine ih _ _ _ ?_
      rw [alistKeys_addScore, alistKeys_addDataSem, h]

/-- The score pass and the keyword data pass build the same key list. -/
theorem keys_procScores_eq_kw (w : ℚ) :
    ∀ (l : List Chunk) (rank : ℕ) (m : List (Str × ℚ))
      (d : List (Str × Chunk)), alistKeys m = alistKeys d →
      alistKeys (procScores w rank l m) = alistKeys (procDataKw rank l d) := by
  intro l
  induction l with
  | nil => intro rank m d h; simpa [procScores, procDataKw] using h
  | cons c rest ih =>
    intro rank m d h
    simp only [procScores, procDataKw]
    by_cases hcid : c.id = []
    · rw [if_pos hcid, if_pos hcid]; exact ih _ _ _ h
    · rw [if_neg hcid, if_neg hcid]
      refine ih _ _ _ ?_
      rw [alistKeys_addScore, alistKeys_addDataKw, h]

/-- Only non-empty ids ever become score keys. -/
theorem keys_procScores_ne (w : ℚ) :
    ∀ (l : List Chunk) (rank : ℕ) (m : List (Str × ℚ)),
      (∀ id ∈ alistKeys m, id ≠ []) →
      ∀ id ∈ alistKeys (procScores w rank l m), id ≠ [] := by
  intro l
  induction l with
  | nil => intro rank m h; simpa [procScores] using h
  | cons c rest ih =>
    intro rank m h
    simp only [procScores]
    by_cases hcid : c.id = []
    · rw [if_pos hcid]; exact ih _ _ h
    · rw [if_neg hcid]
      refine ih _ _ ?_
      intro id hmem
      rw [alistKeys_addScore] at hmem
      split at hmem
      · exact h id hmem
      · rcases List.mem_append.mp hmem with hmem | hmem
        · exact h id hmem
        · simp only [List.mem_singleton] at hmem
          rw [hmem]; exact hcid

/-- Semantic data entries carry the chunk whose id is their key. -/
theorem dataInv_addDataSem (m : List (Str × Chunk)) (k : Str) (c : Chunk)
    (hm : ∀ p ∈ m, (p : Str × Chunk).2.id = p.1) (hck : c.id = k) :
    ∀ p ∈ addDataSem m k c, (p : Str × Chunk).2.id = p.1 := by
  induction m with
  | nil =>
    intro p hp
    simp only [addDataSem, List.mem_singleton] at hp
    rw [hp]
    exact hck
  | cons q rest ih =>
    obtain ⟨a, b⟩ := q
    intro p hp
    simp only [addDataSem] at hp
    split at hp
    · rcases List.mem_cons.mp hp with rfl | hp
      · exact hm (a, b) (List.mem_cons_self _ _)
      · exact hm p (List.mem_cons_of_mem _ hp)
    · rcases List.mem_cons.mp hp with rfl | hp
      · exact hm (a, b) (List.mem_cons_self _ _)
      · exact ih (fun q hq => hm q (List.mem_cons_of_mem _ hq)) p hp

/-- Keyword data entries carry the chunk whose id is their key. -/
theorem dataInv_addDataKw (m : List (Str × Chunk)) (k : Str) (c : Chunk)
    (hm : ∀ p ∈ m, (p : Str × Chunk).2.id = p.1) (hck : c.id = k) :
    ∀ p ∈ addDataKw m k c, (p : Str × Chunk).2.id = p.1 := by
  induction m with
  | nil =>
    intro p hp
    simp only [addDataKw, List.mem_singleton] at hp
    rw [hp]
    exact hck
  | cons q rest ih =>
    obtain ⟨a, b⟩ := q
    intro p hp
    simp only [addDataKw] at hp
    split at hp
    · rcases List.mem_cons.mp hp with rfl | hp
      · split
        · exact hm (a, b) (List.mem_cons_self _ _)
        · exact hm (a, b) (List.mem_cons_self _ _)
      · exact hm p (List.mem_cons_of_mem _ hp)
    · rcases List.mem_cons.mp hp with rfl | hp
      · exact hm (a, b) (List.mem_cons_self _ _)
      · exact ih (fun q hq => hm q (List.mem_cons_of_mem _ hq)) p hp

/-- The semantic data pass preserves the entry/key invariant. -/
theorem dataInv_procDataSem :
    ∀ (l : List Chunk) (rank : ℕ) (d : List (Str × Chunk)),
      (∀ p ∈ d, (p : Str × Chunk).2.id = p.1) →
      ∀ p ∈ procDataSem rank l d, (p : Str × Chunk).2.id = p.1 := by
  intro l
  induction l with
  | nil => intro rank d h; exact h
  | cons c rest ih =>
    intro rank d h
    simp only [procDataSem]
    by_cases hcid : c.id = []
    · rw [if_pos hcid]; exact ih _ _ h
    · rw [if_neg hcid]
      exact ih _ _ (dataInv_addDataSem d c.id c h rfl)

/-- The keyword data pass preserves the entry/key invariant. -/
theorem dataInv_procDataKw :
    ∀ (l : List Chunk) (rank : ℕ) (d : List (Str × Chunk)),
      (∀ p ∈ d, (p : Str × Chunk).2.id = p.1) →
      ∀ p ∈ procDataKw rank l d, (p : Str × Chunk).2.id = p.1 := by
  intro l
  induction l with
  | nil => intro rank d h; exact h
  | cons c rest ih =>
    intro rank d h
    simp only [procDataKw]
    by_cases hcid : c.id = []
    · rw [if_pos hcid]; exact ih _ _ h
    · rw [if_neg hcid]
      exact ih _ _ (dataInv_addDataKw d c.id c h rfl)

/-- The score pass adds at most one key per chunk. -/
theorem keys_procScores_length (w : ℚ) :
    ∀ (l : List Chunk) (rank : ℕ) (m : List (Str × ℚ)),
      (alistKeys (procScores w rank l m)).length ≤
        (alistKeys m).length + l.length := by
  intro l
  induction l with
  | nil => intro rank m; simp [procScores]
  | cons c rest ih =>
    intro rank m
    simp only [procScores]
    by_cases hcid : c.id = []
    · rw [if_pos hcid]
      have := ih (rank + 1) m
      simp only [List.length_cons]
      omega
    · rw [if_neg hcid]
      have h1 := ih (rank + 1) (addScore m c.id (w * (1 / (60 + (rank : ℚ) + 1))))
      have h2 : (alistKeys (addScore m c.id (w * (1 / (60 + (rank : ℚ) + 1))))).length ≤
          (alistKeys m).length + 1 := by
        rw [alistKeys_addScore]
        split
        · omega
        · simp
      simp only [List.length_cons]
      omega

/-- `filterMap` of an everywhere-defined partial map commutes with
`take`. -/
theorem filterMap_take_of_isSome {α β : Type} (g : α → Option β) :
    ∀ (l : List α) (n : ℕ), (∀ x ∈ l, (g x).isSome) →
      (l.take n).filterMap g = (l.filterMap g).take n := by
  intro l
  induction l with
  | nil => intro n h; simp
  | cons x xs ih =>
    intro n h
    cases n with
    | zero => simp
    | succ n =>
      obtain ⟨y, hy⟩ := Option.isSome_iff_exists.mp (h x (List.mem_cons_self _ _))
      simp only [List.take_succ_cons, List.filterMap_cons, hy]
      rw [ih n (fun z hz => h z (List.mem_cons_of_mem _ hz))]

/-- `hybrid_score_chunks` in terms of the named score and data maps. -/
theorem hybrid_score_chunks_eq (semantic_chunks keyword_chunks : List Chunk)
    (semantic_weight keyword_weight : ℚ) (top_k : ℕ) :
    hybrid_score_chunks semantic_chunks keyword_chunks semantic_weight
      keyword_weight top_k =
    (((alistKeys (hybridM semantic_chunks keyword_chunks semantic_weight
        keyword_weight)).mergeSort (fun a b =>
          decide (scoreOf (hybridM semantic_chunks keyword_chunks
            semantic_weight keyword_weight) b ≤
            scoreOf (hybridM semantic_chunks keyword_chunks semantic_weight
              keyword_weight) a))).take top_k).filterMap (fun k =>
      (alistFind (hybridD semantic_chunks keyword_chunks) k).map (fun c =>
        { c with hybridScore := some (scoreOf (hybridM semantic_chunks
            keyword_chunks semantic_weight keyword_weight) k) })) := rfl

/-- The combined score map realises the spec RRF formula at every
non-empty id. -/
theorem scoreOf_hybridM (semantic_chunks keyword_chunks : List Chunk)
    (semantic_weight keyword_weight : ℚ)
    (hsem : (semantic_chunks.map Chunk.id).Nodup)
    (hkw : (keyword_chunks.map Chunk.id).Nodup)
    (id : Str) (hid : id ≠ []) :
    scoreOf (hybridM semantic_chunks keyword_chunks semantic_weight
        keyword_weight) id =
      rrfSpecScore semantic_chunks keyword_chunks semantic_weight
        keyword_weight id := by
  show scoreOf (procScores keyword_weight 0 keyword_chunks
    (procScores semantic_weight 0 semantic_chunks [])) id = _
  rw [procScores_scoreOf keyword_weight keyword_chunks 0 _ id hid hkw,
    procScores_scoreOf semantic_weight semantic_chunks 0 [] id hid hsem]
  have h0 : scoreOf ([] : List (Str × ℚ)) id = 0 := rfl
  rw [h0]
  simp only [rrfSpecScore, zero_add, Nat.cast_zero, add_zero]

/-- Score keys and data keys of the fused maps coincide. -/
theorem keys_hybridM_eq (semantic_chunks keyword_chunks : List Chunk)
    (semantic_weight keyword_weight : ℚ) :
    alistKeys (hybridM semantic_chunks keyword_chunks semantic_weight
      keyword_weight) = alistKeys (hybridD semantic_chunks keyword_chunks) :=
  keys_procScores_eq_kw keyword_weight keyword_chunks 0 _ _
    (keys_procScores_eq_sem semantic_weight semantic_chunks 0 [] [] rfl)

/-- All fused score keys are non-empty ids. -/
theorem keys_hybridM_ne (semantic_chunks keyword_chunks : List Chunk)
    (semantic_weight keyword_weight : ℚ) :
    ∀ id ∈ alistKeys (hybridM semantic_chunks keyword_chunks semantic_weight
      keyword_weight), id ≠ [] :=
  keys_procScores_ne keyword_weight keyword_chunks 0 _
    (keys_procScores_ne semantic_weight semantic_chunks 0 []
      (fun _ h => absurd h (List.not_mem_nil _)))

/-- Every fused data entry stores the chunk whose id is its key. -/
theorem dataInv_hybridD (semantic_chunks keyword_chunks : List Chunk) :
    ∀ p ∈ hybridD semantic_chunks keyword_chunks,
      (p : Str × Chunk).2.id = p.1 :=
  dataInv_procDataKw keyword_chunks 0 _
    (dataInv_procDataSem semantic_chunks 0 []
      (fun _ h => absurd h (List.not_mem_nil _)))

/-- The fused score map has at most one key per input chunk. -/
theorem keys_hybridM_length (semantic_chunks keyword_chunks : List Chunk)
    (semantic_weight keyword_weight : ℚ) :
    (alistKeys (hybridM semantic_chunks keyword_chunks semantic_weight
      keyword_weight)).length ≤
      semantic_chunks.length + keyword_chunks.length := by
  have h1 := keys_procScores_length semantic_weight semantic_chunks 0
    ([] : List (Str × ℚ))
  have h2 := keys_procScores_length keyword_weight keyword_chunks 0
    (procScores semantic_weight 0 semantic_chunks [])
  have h0 : (alistKeys ([] : List (Str × ℚ))).length = 0 := rfl
  rw [h0] at h1
  show (alistKeys (procScores keyword_weight 0 keyword_chunks
    (procScores semantic_weight 0 semantic_chunks []))).length ≤ _
  omega

/-- The sort-then-annotate pipeline of `hybrid_score_chunks` yields a list
whose recorded hybrid scores are descending. -/
theorem fused_pairwise (M : List (Str × ℚ)) (D : List (Str × Chunk))
    (n : ℕ) :
    ((((alistKeys M).mergeSort (fun a b =>
        decide (scoreOf M b ≤ scoreOf M a))).take n).filterMap (fun k =>
      (alistFind D k).map (fun c =>
        { c with hybridScore := some (scoreOf M k) }))).Pairwise
      (fun c c2 => c2.hybridScore.getD 0 ≤ c.hybridScore.getD 0) := by
  rw [List.pairwise_filterMap]
  have hsorted : ((alistKeys M).mergeSort (fun a b =>
      decide (scoreOf M b ≤ scoreOf M a))).Pairwise
      (fun a b => decide (scoreOf M b ≤ scoreOf M a) = true) :=
    List.sorted_mergeSort
      (by
        intro a b c hab hbc
        simp only [decide_eq_true_eq] at hab hbc ⊢
        exact le_trans hbc hab)
      (by
        intro a b
        simp only [Bool.or_eq_true, decide_eq_true_eq]
        exact le_total _ _)
      (alistKeys M)
  have htake := List.Pairwise.sublist (List.take_sublist n _) hsorted
  refine htake.imp ?_
  intro a a2 hle x hx y hy
  rw [Option.mem_def, Option.map_eq_some'] at hx hy
  obtain ⟨ca, -, rfl⟩ := hx
  obtain ⟨ca2, -, rfl⟩ := hy
  simp only [decide_eq_true_eq] at hle
  exact hle

/-- When every sorted key has a data entry and the key list fits inside
`N`, truncating before or after annotation agrees. -/
theorem fused_take (M : List (Str × ℚ)) (D : List (Str × Chunk))
    (n N : ℕ) (hN : (alistKeys M).length ≤ N)
    (hkeys : alistKeys M = alistKeys D) :
    (((alistKeys M).mergeSort (fun a b =>
        decide (scoreOf M b ≤ scoreOf M a))).take n).filterMap (fun k =>
      (alistFind D k).map (fun c =>
        { c with hybridScore := some (scoreOf M k) })) =
    ((((alistKeys M).mergeSort (fun a b =>
        decide (scoreOf M b ≤ scoreOf M a))).take N).filterMap (fun k =>
      (alistFind D k).map (fun c =>
        { c with hybridScore := some (scoreOf M k) }))).take n := by
  have hlen : ((alistKeys M).mergeSort (fun a b =>
      decide (scoreOf M b ≤ scoreOf M a))).length ≤ N := by
    rw [(List.mergeSort_perm _ _).length_eq]
    exact hN
  rw [List.take_of_length_le hlen]
  refine filterMap_take_of_isSome _ _ n ?_
  intro k hk
  have hkm : k ∈ alistKeys M := (List.mergeSort_perm _ _).mem_iff.mp hk
  obtain ⟨v, hv⟩ := alistFind_isSome D k (hkeys ▸ hkm)
  simp [hv]

/-- C2: `hybrid_score_chunks` implements weighted Reciprocal Rank Fusion.
When each source lists distinct chunk ids, every returned chunk carries
the combined score of the spec formula — the sum over the sources
containing its id of `weight_source * (1 / (60 + rank_in_source + 1))`,
one contribution from each source when the chunk appears in both
(`rrfSpecScore`) — the output is sorted by combined score descending, and
it equals the untruncated fused ranking cut to `top_k`. -/
theorem hybrid_score_chunks_rrf (semantic_chunks keyword_chunks : List Chunk)
    (semantic_weight keyword_weight : ℚ) (top_k : ℕ)
    (hsem : (semantic_chunks.map Chunk.id).Nodup)
    (hkw : (keyword_chunks.map Chunk.id).Nodup) :
    (∀ c ∈ hybrid_score_chunks semantic_chunks keyword_chunks
        semantic_weight keyword_weight top_k,
      c.hybridScore = some (rrfSpecScore semantic_chunks keyword_chunks
        semantic_weight keyword_weight c.id)) ∧
    (hybrid_score_chunks semantic_chunks keyword_chunks semantic_weight
        keyword_weight top_k).Pairwise (fun c c2 =>
      c2.hybridScore.getD 0 ≤ c.hybridScore.getD 0) ∧
    hybrid_score_chunks semantic_chunks keyword_chunks semantic_weight
        keyword_weight top_k =
      (hybrid_score_chunks semantic_chunks keyword_chunks semantic_weight
        keyword_weight
        (semantic_chunks.length + keyword_chunks.length)).take top_k := by
  refine ⟨?_, ?_, ?_⟩
  · intro c hc
    rw [hybrid_score_chunks_eq, List.mem_filterMap] at hc
    obtain ⟨k, hk, hfk⟩ := hc
    rw [Option.map_eq_some'] at hfk
    obtain ⟨c0, hfind, hc0⟩ := hfk
    have hkm : k ∈ alistKeys (hybridM semantic_chunks keyword_chunks
        semantic_weight keyword_weight) :=
      (List.mergeSort_perm _ _).mem_iff.mp (List.mem_of_mem_take hk)
    have hkne : k ≠ [] :=
      keys_hybridM_ne semantic_chunks keyword_chunks semantic_weight
        keyword_weight k hkm
    have hidk : c0.id = k :=
      dataInv_hybridD semantic_chunks keyword_chunks (k, c0)
        (alistFind_mem _ _ _ hfind)
    rw [← hc0]
    show some (scoreOf (hybridM semantic_chunks keyword_chunks
        semantic_weight keyword_weight) k) =
      some (rrfSpecScore semantic_chunks keyword_chunks semantic_weight
        keyword_weight c0.id)
    rw [hidk, scoreOf_hybridM semantic_chunks keyword_chunks semantic_weight
      keyword_weight hsem hkw k hkne]
  · rw [hybrid_score_chunks_eq]
    exact fused_pairwise _ _ _
  · rw [hybrid_score_chunks_eq, hybrid_score_chunks_eq]
    exact fused_take _ _ top_k _
      (keys_hybridM_length semantic_chunks keyword_chunks semantic_weight
        keyword_weight)
      (keys_hybridM_eq semantic_chunks keyword_chunks semantic_weight
        keyword_weight)

/-- C2 witness: the RRF contract instantiated on two concrete overlapping
two-element sources. -/
theorem hybrid_score_chunks_rrf_witness :
    (((List.map Chunk.id [exK1, exK2]).Nodup ∧
      (List.map Chunk.id [exK2, exK3]).Nodup) ∧
    ((∀ c ∈ hybrid_score_chunks [exK1, exK2] [exK2, exK3] 1 (1/2) 2,
      c.hybridScore = some (rrfSpecScore [exK1, exK2] [exK2, exK3]
        1 (1/2) c.id)) ∧
    (hybrid_score_chunks [exK1, exK2] [exK2, exK3] 1 (1/2) 2).Pairwise
      (fun c c2 => c2.hybridScore.getD 0 ≤ c.hybridScore.getD 0) ∧
    hybrid_score_chunks [exK1, exK2] [exK2, exK3] 1 (1/2) 2 =
      (hybrid_score_chunks [exK1, exK2] [exK2, exK3] 1 (1/2)
        ((List.length [exK1, exK2]) + (List.length [exK2, exK3]))).take 2)) :=
  ⟨⟨by decide, by decide⟩,
    hybrid_score_chunks_rrf [exK1, exK2] [exK2, exK3] 1 (1/2) 2
      (by decide) (by decide)⟩

end RAG
